import Mathlib

/-!
# Verification of the resume-automa storage and parsing layer

A shallow embedding, in Lean 4, of the storage adapter, master-resume
accessor, page-capture handler and AI-client response handling of the
`resume-automa` repository (a browser extension plus companion web app).

The repository keeps several near-duplicate revisions of the same modules;
where two revisions of a function exist they are embedded separately with a
`1` / `2` suffix (`getMasterResume1` / `getMasterResume2`, ...), numbered in
the order they appear in the concatenated source files.

Conventions of the embedding:

* JavaScript strings are Lean `String`s, processed as `List Char`.
* JSON documents are the inductive `Json`; `jsonSpell` models
  `JSON.stringify` and `jsonRead` models `JSON.parse` (a full executable
  recursive-descent parser).  `JSON.parse (JSON.stringify x) = x` is proved
  below (`jsonRead_jsonSpell`) for values whose numbers are integral, which
  covers everything this program ever serializes.
* Asynchronous results are `JsPromise`: `resolved`, `rejected` (the promise
  rejects and an `await` raises to the caller), or `pending` (the promise
  never settles; an `await` on it never completes).
* Numbers in JavaScript arithmetic are `JSNum := Option ℚ`, `none` standing
  for `NaN`; the arithmetic used by this program is exact on rationals, so
  no binary64 rounding is modelled (no claim here depends on rounding).
-/

set_option maxHeartbeats 1000000

namespace ResumeAutoma

/-! ## Character-level helpers -/

/-- The whitespace characters recognised both by the JSON grammar and by the
`trim` / `\s` handling this embedding models (space, tab, LF, CR). -/
def wsChar (c : Char) : Bool :=
  c = ' ' || c = '\t' || c = '\n' || c = '\r'

def digitChar (c : Char) : Bool :=
  48 ≤ c.toNat && c.toNat ≤ 57

/-- Model of `String.prototype.trim` on a character list. -/
def trimChars (cs : List Char) : List Char :=
  ((cs.dropWhile wsChar).reverse.dropWhile wsChar).reverse

/-- Model of `String.prototype.trim`. -/
def jsTrim (s : String) : String :=
  String.mk (trimChars s.data)

/-- Model of `String.prototype.toLowerCase` (simple per-character mapping). -/
def jsLower (s : String) : String :=
  String.mk (s.data.map Char.toLower)

/-- Does `pre` occur at the very front of `cs`? -/
def leadsWith : List Char → List Char → Bool
  | [], _ => true
  | _ :: _, [] => false
  | p :: ps, c :: cs => p = c && leadsWith ps cs

/-- Does `pat` occur somewhere inside `cs`?  Models
`String.prototype.includes`. -/
def occursIn (cs pat : List Char) : Bool :=
  match cs with
  | [] => leadsWith pat []
  | _ :: tl => leadsWith pat cs || occursIn tl pat

/-- `haystack.includes(needle)` on strings. -/
def jsIncludes (haystack needle : String) : Bool :=
  occursIn haystack.data needle.data

/-- Model of the regex replacement `.replace(/\{[\s\S]*\}/ ...)` match used by
all the AI-response handlers: `text.match(/\{[\s\S]*\})/` yields the segment
from the first `'{'` that has a `'}'` after it to the last `'}'` of the
string, and `none` when no such pair exists. -/
def braceSpan (cs : List Char) : Option (List Char) :=
  let tail := cs.dropWhile (fun c => !(c = '{'))
  let span := (tail.reverse.dropWhile (fun c => !(c = '}'))).reverse
  if 2 ≤ span.length then some span else none

/-- `text.match(/\{[\s\S]*\}/)` on a string, returning the matched substring. -/
def jsBraceMatch (s : String) : Option String :=
  (braceSpan s.data).map String.mk

theorem dropWhile_len_le (p : Char → Bool) :
    ∀ cs : List Char, (cs.dropWhile p).length ≤ cs.length := by
  intro cs
  induction cs with
  | nil => simp [List.dropWhile]
  | cons c tl ih =>
    simp only [List.dropWhile, List.length_cons]
    split
    · omega
    · simp only [List.length_cons]
      omega

/-! `stripTags` models `html.replace(/<[^>]*>/g, " ")`: each maximal `<...>`
group (with no `>` inside) becomes one space; a `<` never followed by a `>`
stays verbatim (the regex finds no match there).  `tagScan` carries the
characters seen since the pending `<` so they can be emitted verbatim when
the input ends with no closing `>`. -/

mutual

def stripTags : List Char → List Char
  | [] => []
  | c :: tl => if c = '<' then tagScan tl ['<'] else c :: stripTags tl

def tagScan : List Char → List Char → List Char
  | [], pending => pending.reverse
  | c :: tl, pending => if c = '>' then ' ' :: stripTags tl else tagScan tl (c :: pending)

end

/-! `squashWs` models `.replace(/\s+/g, " ")`: every whitespace run becomes
one space. -/

mutual

def squashWs : List Char → List Char
  | [] => []
  | c :: tl => if wsChar c then ' ' :: squashTail tl else c :: squashWs tl

def squashTail : List Char → List Char
  | [] => []
  | c :: tl => if wsChar c then squashTail tl else c :: squashWs tl

end

/-! ## JSON documents

`Json` is the value space of `JSON.parse` / `JSON.stringify`.  Arrays and
object member lists are their own mutual inductives (`JArr`, `JObj`) so that
recursive definitions and proofs stay plainly structural.  Numbers are exact
rationals: the program never serializes a non-integral number, and no claim
below depends on binary64 rounding of parsed literals. -/

mutual

inductive Json where
  | null : Json
  | bool (b : Bool) : Json
  | num (q : ℚ) : Json
  | str (s : String) : Json
  | arr (a : JArr) : Json
  | obj (o : JObj) : Json

inductive JArr where
  | nil : JArr
  | cons (hd : Json) (tl : JArr) : JArr

inductive JObj where
  | nil : JObj
  | cons (key : String) (val : Json) (tl : JObj) : JObj

end

mutual

def Json.beq : Json → Json → Bool
  | .null, .null => true
  | .bool a, .bool b => a = b
  | .num a, .num b => a = b
  | .str a, .str b => a = b
  | .arr a, .arr b => JArr.beq a b
  | .obj a, .obj b => JObj.beq a b
  | _, _ => false

def JArr.beq : JArr → JArr → Bool
  | .nil, .nil => true
  | .cons h t, .cons h' t' => Json.beq h h' && JArr.beq t t'
  | _, _ => false

def JObj.beq : JObj → JObj → Bool
  | .nil, .nil => true
  | .cons k v t, .cons k' v' t' => k = k' && Json.beq v v' && JObj.beq t t'
  | _, _ => false

end

mutual

theorem Json.beq_iff : ∀ a b : Json, Json.beq a b = true ↔ a = b
  | .null, b => by cases b <;> simp [Json.beq]
  | .bool x, b => by cases b <;> simp [Json.beq]
  | .num x, b => by cases b <;> simp [Json.beq]
  | .str x, b => by cases b <;> simp [Json.beq]
  | .arr x, b => by cases b <;> simp [Json.beq, JArr.beq_iff_arr x]
  | .obj x, b => by cases b <;> simp [Json.beq, JObj.beq_iff_obj x]

theorem JArr.beq_iff_arr : ∀ a b : JArr, JArr.beq a b = true ↔ a = b
  | .nil, b => by cases b <;> simp [JArr.beq]
  | .cons h t, b => by
    cases b <;> simp [JArr.beq, Json.beq_iff h, JArr.beq_iff_arr t]

theorem JObj.beq_iff_obj : ∀ a b : JObj, JObj.beq a b = true ↔ a = b
  | .nil, b => by cases b <;> simp [JObj.beq]
  | .cons k v t, b => by
    cases b <;> simp [JObj.beq, Json.beq_iff v, JObj.beq_iff_obj t, and_assoc]

end

instance : DecidableEq Json := fun a b => decidable_of_iff _ (Json.beq_iff a b)

instance : DecidableEq JArr := fun a b => decidable_of_iff _ (JArr.beq_iff_arr a b)

instance : DecidableEq JObj := fun a b => decidable_of_iff _ (JObj.beq_iff_obj a b)

def JArr.toList : JArr → List Json
  | .nil => []
  | .cons h t => h :: JArr.toList t

def JArr.ofList : List Json → JArr
  | [] => .nil
  | h :: t => .cons h (JArr.ofList t)

def JObj.find : JObj → String → Option Json
  | .nil, _ => none
  | .cons k v t, key => if k = key then some v else JObj.find t key

/-- JavaScript truthiness of a JSON value (`undefined` is handled by the
`Option` layer at use sites). -/
def Json.truthy : Json → Bool
  | .null => false
  | .bool b => b
  | .num q => !(q = 0)
  | .str s => !(s = "")
  | .arr _ => true
  | .obj _ => true

/-! ## `JSON.stringify` -/

/-- Lower-case hex digit for `k < 16`. -/
def hexDigit (k : Nat) : Char :=
  if k < 10 then Char.ofNat (48 + k) else Char.ofNat (87 + k)

/-- The JSON escape of one character, as `JSON.stringify` produces it:
`\"`, `\\`, the five short control escapes, `\u00XX` for the remaining
control characters, and everything else verbatim. -/
def escChar (c : Char) : List Char :=
  if c = '"' then ['\\', '"']
  else if c = '\\' then ['\\', '\\']
  else if c = '\n' then ['\\', 'n']
  else if c = '\r' then ['\\', 'r']
  else if c = '\t' then ['\\', 't']
  else if c = '\x08' then ['\\', 'b']
  else if c = '\x0c' then ['\\', 'f']
  else if c.toNat < 32 then
    ['\\', 'u', '0', '0', hexDigit (c.toNat / 16), hexDigit (c.toNat % 16)]
  else [c]

def escBody : List Char → List Char
  | [] => []
  | c :: tl => escChar c ++ escBody tl

/-- A string literal as `JSON.stringify` renders it. -/
def spellStr (s : String) : List Char :=
  '"' :: (escBody s.data ++ ['"'])

/-- Decimal digits of `n`, most significant first. -/
def natDigs (n : Nat) : List Char :=
  if h : n < 10 then [Char.ofNat (48 + n)]
  else natDigs (n / 10) ++ [Char.ofNat (48 + n % 10)]
termination_by n
decreasing_by omega

def spellInt (i : Int) : List Char :=
  (if i < 0 then ['-'] else []) ++ natDigs i.natAbs

/-- Rendering of a number.  The program only ever serializes integral
numbers; the round-trip theorem is stated for those (`Json.intish`), so the
integer part is all this model prints. -/
def spellNum (q : ℚ) : List Char :=
  spellInt q.num

mutual

def Json.spell : Json → List Char
  | .num q => spellNum q
  | .str s => spellStr s
  | .arr a => '[' :: (JArr.spellItems a ++ [']'])
  | .obj o => '{' :: (JObj.spellItems o ++ ['}'])
  | .bool false => ['f', 'a', 'l', 's', 'e']
  | .bool true => ['t', 'r', 'u', 'e']
  | .null => ['n', 'u', 'l', 'l']

def JArr.spellItems : JArr → List Char
  | .nil => []
  | .cons h t => Json.spell h ++ JArr.spellMore t

def JArr.spellMore : JArr → List Char
  | .nil => []
  | .cons h t => ',' :: (Json.spell h ++ JArr.spellMore t)

def JObj.spellItems : JObj → List Char
  | .nil => []
  | .cons k v t => spellStr k ++ ':' :: (Json.spell v ++ JObj.spellMore t)

def JObj.spellMore : JObj → List Char
  | .nil => []
  | .cons k v t => ',' :: (spellStr k ++ ':' :: (Json.spell v ++ JObj.spellMore t))

end

/-- `JSON.stringify` on a JSON document. -/
def jsonSpell (j : Json) : String :=
  String.mk (Json.spell j)

/-! `Json.intish`: all numbers in the document are integral
(`JSON.stringify` is modelled exactly on these; the program serializes
nothing else). -/

mutual

def Json.intish : Json → Prop
  | .num q => q.den = 1
  | .arr a => JArr.intish a
  | .obj o => JObj.intish o
  | _ => True

def JArr.intish : JArr → Prop
  | .nil => True
  | .cons h t => Json.intish h ∧ JArr.intish t

def JObj.intish : JObj → Prop
  | .nil => True
  | .cons _ v t => Json.intish v ∧ JObj.intish t

end

/-! ## `JSON.parse`

A full executable recursive-descent parser for the JSON grammar, structural
on a fuel counter (any fuel above the input length suffices; `jsonRead`
supplies it).  It accepts exactly the RFC grammar as `JSON.parse` does, with
two modelling boundaries: number literals evaluate to exact rationals
(instead of binary64), and `\uXXXX` escapes that would produce a lone UTF-16
surrogate are rejected (Lean strings hold only scalar values). -/

def skipWs (cs : List Char) : List Char :=
  cs.dropWhile wsChar

def hexNib (c : Char) : Option Nat :=
  if '0' ≤ c ∧ c ≤ '9' then some (c.toNat - 48)
  else if 'a' ≤ c ∧ c ≤ 'f' then some (c.toNat - 87)
  else if 'A' ≤ c ∧ c ≤ 'F' then some (c.toNat - 55)
  else none

def hexQuad (a b c d : Char) : Option Nat := do
  let x ← hexNib a
  let y ← hexNib b
  let z ← hexNib c
  let w ← hexNib d
  pure (((x * 16 + y) * 16 + z) * 16 + w)

/-- The single-character escapes of the JSON grammar. -/
def escSwap (c : Char) : Option Char :=
  if c = '"' then some '"'
  else if c = '\\' then some '\\'
  else if c = '/' then some '/'
  else if c = 'n' then some '\n'
  else if c = 'r' then some '\r'
  else if c = 't' then some '\t'
  else if c = 'b' then some '\x08'
  else if c = 'f' then some '\x0c'
  else none

/-! `readStrBody` parses a string-literal body (after the opening quote) up
to the closing quote; `readEsc` handles what follows a backslash.  Raw
control characters are invalid, as in `JSON.parse`.  Model boundary: a
`\uXXXX` escape naming a UTF-16 surrogate is rejected (Lean strings hold
scalar values only, so surrogate escapes are outside the modelled string
space; the serializer under verification never emits them). -/

mutual

def readStrBody : List Char → List Char → Option (String × List Char)
  | [], _ => none
  | c :: tl, acc =>
    if c = '"' then some (String.mk acc.reverse, tl)
    else if c = '\\' then readEsc tl acc
    else if c.toNat < 32 then none
    else readStrBody tl (c :: acc)

def readEsc : List Char → List Char → Option (String × List Char)
  | 'u' :: h1 :: h2 :: h3 :: h4 :: tl2, acc =>
    (match hexQuad h1 h2 h3 h4 with
     | none => none
     | some m =>
       if m < 0xD800 ∨ 0xDFFF < m then readStrBody tl2 (Char.ofNat m :: acc)
       else none)
  | e :: tl2, acc =>
    (match escSwap e with
     | some ch => readStrBody tl2 (ch :: acc)
     | none => none)
  | [], _ => none

end

/-- Split off the maximal leading digit run. -/
def grabDigits : List Char → List Char × List Char
  | [] => ([], [])
  | c :: tl =>
    if digitChar c then
      let (ds, r) := grabDigits tl
      (c :: ds, r)
    else ([], c :: tl)

def digitsVal (ds : List Char) : Nat :=
  ds.foldl (fun a c => a * 10 + (c.toNat - 48)) 0

/-- Leading minus sign of a number literal. -/
def negScan (cs : List Char) : Bool × List Char :=
  match cs with
  | '-' :: r => (true, r)
  | _ => (false, cs)

/-- Optional fraction part `.ddd` of a number literal. -/
def fracScan (cs : List Char) : Option (List Char × List Char) :=
  match cs with
  | '.' :: r =>
    match grabDigits r with
    | ([], _) => none
    | (fds, r2) => some (fds, r2)
  | _ => some ([], cs)

/-- Optional exponent part `e±ddd` of a number literal. -/
def expScan (cs : List Char) : Option (Int × List Char) :=
  match cs with
  | 'e' :: r | 'E' :: r =>
    let (esgn, r1) : Int × List Char := match r with
      | '+' :: r2 => (1, r2)
      | '-' :: r2 => (-1, r2)
      | _ => (1, r)
    match grabDigits r1 with
    | ([], _) => none
    | (eds, r2) => some (esgn * (digitsVal eds : Int), r2)
  | _ => some (0, cs)

/-- Parse a JSON number literal into an exact rational. -/
def readNum (cs : List Char) : Option (ℚ × List Char) :=
  let neg := (negScan cs).1
  let cs1 := (negScan cs).2
  let ids := (grabDigits cs1).1
  let cs2 := (grabDigits cs1).2
  match ids with
  | [] => none
  | d0 :: drest =>
    if d0 = '0' ∧ drest ≠ [] then none  -- leading zeros are invalid
    else
      match fracScan cs2 with
      | none => none
      | some (fds, cs3) =>
        match expScan cs3 with
        | none => none
        | some (ex, cs4) =>
          -- the literal's exact value: (±) (I.F) × 10^ex, as a normalized rational
          let mant : Int :=
            (if neg then -1 else 1) * (digitsVal ids * 10 ^ fds.length + digitsVal fds)
          let q : ℚ :=
            if 0 ≤ ex then mkRat (mant * 10 ^ ex.toNat) (10 ^ fds.length)
            else mkRat mant (10 ^ fds.length * 10 ^ (-ex).toNat)
          some (q, cs4)

mutual

def readVal : Nat → List Char → Option (Json × List Char)
  | 0, _ => none
  | fuel + 1, cs =>
    match skipWs cs with
    | [] => none
    | c :: tl =>
      if c = 'n' then
        match tl with
        | 'u' :: 'l' :: 'l' :: r => some (.null, r)
        | _ => none
      else if c = 't' then
        match tl with
        | 'r' :: 'u' :: 'e' :: r => some (.bool true, r)
        | _ => none
      else if c = 'f' then
        match tl with
        | 'a' :: 'l' :: 's' :: 'e' :: r => some (.bool false, r)
        | _ => none
      else if c = '"' then (readStrBody tl []).map fun p => (.str p.1, p.2)
      else if c = '[' then (readArr fuel (skipWs tl)).map fun p => (.arr p.1, p.2)
      else if c = '{' then (readObj fuel (skipWs tl)).map fun p => (.obj p.1, p.2)
      else if c = '-' || digitChar c then (readNum (c :: tl)).map fun p => (.num p.1, p.2)
      else none

/-- The inside of an array, whitespace already skipped after `'['`. -/
def readArr : Nat → List Char → Option (JArr × List Char)
  | 0, _ => none
  | fuel + 1, cs =>
    match cs with
    | [] => none
    | c :: tl =>
      if c = ']' then some (.nil, tl)
      else
        (readVal fuel (c :: tl)).bind fun p =>
          (readArrMore fuel p.2).bind fun p2 => some (.cons p.1 p2.1, p2.2)

/-- After an array element: either `]` closes, or `,` demands another. -/
def readArrMore : Nat → List Char → Option (JArr × List Char)
  | 0, _ => none
  | fuel + 1, cs =>
    match skipWs cs with
    | [] => none
    | c :: tl =>
      if c = ']' then some (.nil, tl)
      else if c = ',' then
        (readVal fuel tl).bind fun p =>
          (readArrMore fuel p.2).bind fun p2 => some (.cons p.1 p2.1, p2.2)
      else none

/-- One `"key": value` member. -/
def readMember : Nat → List Char → Option ((String × Json) × List Char)
  | 0, _ => none
  | fuel + 1, cs =>
    match skipWs cs with
    | [] => none
    | c :: tl =>
      if c = '"' then
        (readStrBody tl []).bind fun pk =>
          match skipWs pk.2 with
          | [] => none
          | c2 :: r2 =>
            if c2 = ':' then
              (readVal fuel r2).bind fun pv => some ((pk.1, pv.1), pv.2)
            else none
      else none

/-- The inside of an object, whitespace already skipped after `'{'`. -/
def readObj : Nat → List Char → Option (JObj × List Char)
  | 0, _ => none
  | fuel + 1, cs =>
    match cs with
    | [] => none
    | c :: tl =>
      if c = '}' then some (.nil, tl)
      else
        (readMember fuel (c :: tl)).bind fun pm =>
          (readObjMore fuel pm.2).bind fun p2 => some (.cons pm.1.1 pm.1.2 p2.1, p2.2)

/-- After an object member: either `}` closes, or `,` demands another. -/
def readObjMore : Nat → List Char → Option (JObj × List Char)
  | 0, _ => none
  | fuel + 1, cs =>
    match skipWs cs with
    | [] => none
    | c :: tl =>
      if c = '}' then some (.nil, tl)
      else if c = ',' then
        (readMember fuel tl).bind fun pm =>
          (readObjMore fuel pm.2).bind fun p2 => some (.cons pm.1.1 pm.1.2 p2.1, p2.2)
      else none

end

/-- `JSON.parse`: `some` on a valid document, `none` where `JSON.parse`
throws.  The fuel `3 * length + 1` is comfortably past what any input can
consume (each nesting step eats at least one character). -/
def jsonRead (s : String) : Option Json :=
  match readVal (3 * s.data.length + 1) s.data with
  | some (v, rest) => if skipWs rest = [] then some v else none
  | none => none

example : jsonRead "123" = some (.num 123) := by decide
example : jsonRead " \x7b\"a\": [1, true, \"x\"] \x7d " =
    some (.obj (.cons "a" (.arr (.cons (.num 1) (.cons (.bool true)
      (.cons (.str "x") .nil)))) .nil)) := by decide
example : jsonRead "nope" = none := by decide
example : jsonRead "[1,]" = none := by decide
example : jsonRead "\x7b\"a\":1" = none := by decide
example : jsonRead "\"a\\nb\"" = some (.str "a\nb") := by decide
example : jsonRead "-4.25e1" = some (.num (mkRat (-85) 2)) := by decide
example : jsonRead "01" = none := by decide

/-! ## The codec round-trip: `jsonRead (jsonSpell v) = some v`

Proved for every document whose numbers are integral (`intish`), which is
everything this program serializes (its documents hold only strings, arrays,
objects and booleans). -/

theorem skipWs_cons (c : Char) (x : List Char) (h : wsChar c = false) :
    skipWs (c :: x) = c :: x := by
  simp [skipWs, List.dropWhile, h]

/-- A remainder that cannot extend a number literal (every delimiter the
printer emits after a number qualifies). -/
def numStop : List Char → Prop
  | [] => True
  | c :: _ => digitChar c = false ∧ c ≠ '.' ∧ c ≠ 'e' ∧ c ≠ 'E'

theorem digit_char_facts : ∀ k, k < 10 →
    (Char.ofNat (48 + k)).toNat = 48 + k ∧ digitChar (Char.ofNat (48 + k)) = true := by
  decide

theorem natDigs_all_digits (n : Nat) : ∀ c ∈ natDigs n, digitChar c = true := by
  induction n using Nat.strong_induction_on with
  | _ n ih =>
    rw [natDigs]
    split
    · intro c hc
      rw [List.mem_singleton] at hc
      subst hc
      exact (digit_char_facts _ (by omega)).2
    · intro c hc
      rw [List.mem_append] at hc
      rcases hc with hc | hc
      · exact ih (n / 10) (by omega) c hc
      · rw [List.mem_singleton] at hc
        subst hc
        exact (digit_char_facts _ (Nat.mod_lt _ (by omega))).2

theorem natDigs_nonempty (n : Nat) : natDigs n ≠ [] := by
  rw [natDigs]
  split
  · simp
  · simp

theorem dv_step (ds : List Char) (c : Char) :
    digitsVal (ds ++ [c]) = digitsVal ds * 10 + (c.toNat - 48) := by
  simp [digitsVal, List.foldl_append]

theorem digitsVal_natDigs (n : Nat) : digitsVal (natDigs n) = n := by
  induction n using Nat.strong_induction_on with
  | _ n ih =>
    rw [natDigs]
    split
    · rename_i h
      simp only [digitsVal, List.foldl_cons, List.foldl_nil]
      rw [(digit_char_facts n h).1]
      omega
    · rename_i h
      rw [dv_step, ih (n / 10) (by omega), (digit_char_facts (n % 10) (Nat.mod_lt _ (by omega))).1]
      omega

/-- The leading digit of `natDigs n` is `'0'` only for `n = 0` itself. -/
theorem natDigs_no_leading_zero (n : Nat) : ∀ d t, natDigs n = d :: t → d = '0' →
    n = 0 ∧ t = [] := by
  induction n using Nat.strong_induction_on with
  | _ n ih =>
    intro d t h hd
    rw [natDigs] at h
    split at h
    · rename_i hlt
      have hdc : d = Char.ofNat (48 + n) := by simp_all
      have ht : t = ([] : List Char) := by simp_all
      subst hdc
      subst ht
      refine ⟨?_, rfl⟩
      interval_cases n
      · rfl
      all_goals exact absurd hd (by decide)
    · rename_i hge
      obtain ⟨d0, t0, h0⟩ : ∃ d0 t0, natDigs (n / 10) = d0 :: t0 := by
        cases hnd : natDigs (n / 10) with
        | nil => exact absurd hnd (natDigs_nonempty _)
        | cons a b => exact ⟨a, b, rfl⟩
      rw [h0] at h
      simp only [List.cons_append, List.cons.injEq] at h
      obtain ⟨hdd, _⟩ := h
      have := (ih (n / 10) (by omega) d0 t0 h0 (hdd.trans hd)).1
      omega

theorem grabDigits_skip (cs : List Char) (h : numStop cs) :
    grabDigits cs = ([], cs) := by
  cases cs with
  | nil => rfl
  | cons c tl =>
    simp only [numStop] at h
    simp [grabDigits, h.1]

theorem grabDigits_run (ds : List Char) (hds : ∀ c ∈ ds, digitChar c = true)
    (rest : List Char) (hrest : grabDigits rest = ([], rest)) :
    grabDigits (ds ++ rest) = (ds, rest) := by
  induction ds with
  | nil => simpa using hrest
  | cons c tl ih =>
    have hc : digitChar c = true := hds c (by simp)
    have htl := ih fun x hx => hds x (by simp [hx])
    simp [grabDigits, hc, htl]

theorem negScan_skip {c : Char} (t : List Char) (h : c ≠ '-') :
    negScan (c :: t) = (false, c :: t) := by
  unfold negScan
  split
  · rename_i heq
    rw [List.cons.injEq] at heq
    exact absurd heq.1 h
  · rfl

theorem fracScan_skip (rest : List Char) (hr : numStop rest) :
    fracScan rest = some ([], rest) := by
  unfold fracScan
  split
  · simp [numStop] at hr
  · rfl

theorem expScan_skip (rest : List Char) (hr : numStop rest) :
    expScan rest = some (0, rest) := by
  unfold expScan
  split
  · simp [numStop] at hr
  · simp [numStop] at hr
  · rfl

/-- `readNum` inverts `spellInt` whenever the remainder cannot extend the
literal. -/
theorem readNum_spellInt (i : Int) (rest : List Char) (hr : numStop rest) :
    readNum (spellInt i ++ rest) = some ((i : ℚ), rest) := by
  have hgskip : grabDigits rest = ([], rest) := grabDigits_skip rest hr
  have hgrun := grabDigits_run (natDigs i.natAbs) (natDigs_all_digits _) rest hgskip
  obtain ⟨d0, dt, hds⟩ : ∃ d0 dt, natDigs i.natAbs = d0 :: dt := by
    cases hnd : natDigs i.natAbs with
    | nil => exact absurd hnd (natDigs_nonempty _)
    | cons a b => exact ⟨a, b, rfl⟩
  have hlead : ¬(d0 = '0' ∧ dt ≠ []) := by
    rintro ⟨h0, hne⟩
    exact hne (natDigs_no_leading_zero _ _ _ hds h0).2
  have hval : digitsVal (d0 :: dt) = i.natAbs := hds ▸ digitsVal_natDigs i.natAbs
  have hdvnil : digitsVal ([] : List Char) = 0 := rfl
  rw [hds] at hgrun
  by_cases hneg : i < 0
  · have harg : spellInt i ++ rest = '-' :: ((d0 :: dt) ++ rest) := by
      simp [spellInt, hneg, hds]
    rw [harg]
    unfold readNum
    simp only [show negScan ('-' :: ((d0 :: dt) ++ rest)) = (true, (d0 :: dt) ++ rest)
      from rfl, hgrun]
    simp only [hlead, if_false, fracScan_skip rest hr, expScan_skip rest hr]
    simp only [hval, hdvnil, List.length_nil, pow_zero, Nat.cast_zero, mul_one, add_zero,
      Int.toNat_zero]
    rw [if_pos (le_refl (0 : Int))]
    rw [Rat.mkRat_one]
    congr 2
    push_cast
    rw [abs_of_neg (show (i : ℚ) < 0 by exact_mod_cast hneg)]
    ring
  · have harg : spellInt i ++ rest = (d0 :: dt) ++ rest := by
      simp [spellInt, hneg, hds]
    have hd0 : digitChar d0 = true := by
      have := natDigs_all_digits i.natAbs
      rw [hds] at this
      exact this d0 (by simp)
    have hd0dash : d0 ≠ '-' := by
      intro h; rw [h] at hd0; exact absurd hd0 (by decide)
    rw [harg]
    unfold readNum
    rw [List.cons_append, negScan_skip _ hd0dash]
    simp only [← List.cons_append, hgrun]
    simp only [hlead, if_false, fracScan_skip rest hr, expScan_skip rest hr]
    simp only [hval, hdvnil, List.length_nil, pow_zero, Nat.cast_zero, mul_one, add_zero,
      one_mul, Int.toNat_zero]
    rw [if_pos (le_refl (0 : Int))]
    rw [Rat.mkRat_one]
    congr 2
    push_cast
    rw [abs_of_nonneg (show (0 : ℚ) ≤ (i : ℚ) by exact_mod_cast (show (0:ℤ) ≤ i by omega))]
    ring

theorem hexNib_hexDigit : ∀ k, k < 16 → hexNib (hexDigit k) = some k := by decide

theorem hexQuad_control (c : Char) (h8 : c.toNat < 32) :
    hexQuad '0' '0' (hexDigit (c.toNat / 16)) (hexDigit (c.toNat % 16)) = some c.toNat := by
  unfold hexQuad
  rw [show hexNib '0' = some 0 from rfl,
    hexNib_hexDigit _ (show c.toNat / 16 < 16 by omega),
    hexNib_hexDigit _ (show c.toNat % 16 < 16 by omega)]
  simp only [Option.bind_eq_bind, Option.some_bind, Option.pure_def]
  congr 1
  omega

theorem readEsc_control (c : Char) (h8 : c.toNat < 32) (rest acc : List Char) :
    readEsc ('u' :: '0' :: '0' :: hexDigit (c.toNat / 16) :: hexDigit (c.toNat % 16) :: rest)
      acc = readStrBody rest (c :: acc) := by
  rw [show readEsc
      ('u' :: '0' :: '0' :: hexDigit (c.toNat / 16) :: hexDigit (c.toNat % 16) :: rest) acc
      = (match hexQuad '0' '0' (hexDigit (c.toNat / 16)) (hexDigit (c.toNat % 16)) with
         | none => none
         | some m =>
           if m < 0xD800 ∨ 0xDFFF < m then readStrBody rest (Char.ofNat m :: acc)
           else none) from rfl]
  rw [hexQuad_control c h8]
  rw [show (match some c.toNat with
      | none => (none : Option (String × List Char))
      | some m => if m < 0xD800 ∨ 0xDFFF < m then readStrBody rest (Char.ofNat m :: acc)
                  else none)
      = (if c.toNat < 0xD800 ∨ 0xDFFF < c.toNat then
          readStrBody rest (Char.ofNat c.toNat :: acc) else none) from rfl]
  rw [if_pos (Or.inl (by omega : c.toNat < 0xD800))]
  rw [Char.ofNat_toNat]

/-- Reading one escaped character undoes `escChar`. -/
theorem readStrBody_escChar (c : Char) (rest acc : List Char) :
    readStrBody (escChar c ++ rest) acc = readStrBody rest (c :: acc) := by
  unfold escChar
  by_cases h1 : c = '"'
  · subst h1; rfl
  by_cases h2 : c = '\\'
  · subst h2; simp only [h1, if_false]; rfl
  by_cases h3 : c = '\n'
  · subst h3; simp only [h1, h2, if_false]; rfl
  by_cases h4 : c = '\r'
  · subst h4; simp only [h1, h2, h3, if_false]; rfl
  by_cases h5 : c = '\t'
  · subst h5; simp only [h1, h2, h3, h4, if_false]; rfl
  by_cases h6 : c = '\x08'
  · subst h6; simp only [h1, h2, h3, h4, h5, if_false]; rfl
  by_cases h7 : c = '\x0c'
  · subst h7; simp only [h1, h2, h3, h4, h5, h6, if_false]; rfl
  by_cases h8 : c.toNat < 32
  · simp only [h1, h2, h3, h4, h5, h6, h7, if_false, if_pos h8, List.cons_append,
      List.nil_append]
    rw [show readStrBody
        ('\\' :: 'u' :: '0' :: '0' :: hexDigit (c.toNat / 16) :: hexDigit (c.toNat % 16) :: rest)
        acc
        = readEsc ('u' :: '0' :: '0' :: hexDigit (c.toNat / 16) :: hexDigit (c.toNat % 16) :: rest)
          acc from rfl]
    exact readEsc_control c h8 rest acc
  · simp only [h1, h2, h3, h4, h5, h6, h7, h8, if_false, List.cons_append, List.nil_append]
    rw [show readStrBody (c :: rest) acc
        = if c = '"' then some (String.mk acc.reverse, rest)
          else if c = '\\' then readEsc rest acc
          else if c.toNat < 32 then none
          else readStrBody rest (c :: acc) from by rw [readStrBody]]
    rw [if_neg h1, if_neg h2, if_neg h8]

/-- Reading an escaped run stops exactly at the closing quote. -/
theorem readStrBody_escBody (l : List Char) : ∀ (acc rest : List Char),
    readStrBody (escBody l ++ '"' :: rest) acc
      = some (String.mk (acc.reverse ++ l), rest) := by
  induction l with
  | nil =>
    intro acc rest
    simp [escBody, readStrBody]
  | cons c tl ih =>
    intro acc rest
    rw [escBody, List.append_assoc, readStrBody_escChar, ih]
    simp

/-- The string-literal round-trip. -/
theorem readStr_spellStr (s : String) (rest : List Char) :
    readStrBody (escBody s.data ++ '"' :: rest) [] = some (s, rest) := by
  rw [readStrBody_escBody]
  rfl

/-! Fuel adequate for re-parsing a printed document. -/

mutual

def Json.rfuel : Json → Nat
  | .arr a => JArr.rfuelA a + 1
  | .obj o => JObj.rfuelO o + 1
  | _ => 1

def JArr.rfuelA : JArr → Nat
  | .nil => 1
  | .cons h t => Json.rfuel h + JArr.rfuelA t + 1

def JObj.rfuelO : JObj → Nat
  | .nil => 1
  | .cons _ v t => Json.rfuel v + JObj.rfuelO t + 2

end

theorem digit_head_facts {c : Char} (h : digitChar c = true) :
    wsChar c = false ∧ c ≠ 'n' ∧ c ≠ 't' ∧ c ≠ 'f' ∧ c ≠ '"' ∧ c ≠ '[' ∧ c ≠ '{' ∧
      c ≠ ']' ∧ c ≠ '}' ∧ c ≠ '-' := by
  simp only [digitChar, Bool.and_eq_true, decide_eq_true_eq] at h
  refine ⟨?_, ?_, ?_, ?_, ?_, ?_, ?_, ?_, ?_, ?_⟩
  · simp only [wsChar, Bool.or_eq_false_iff, decide_eq_false_iff_not]
    refine ⟨⟨⟨?_, ?_⟩, ?_⟩, ?_⟩ <;> (intro hc; subst hc; revert h; decide)
  all_goals intro hc; subst hc; revert h; decide

/-- Every printed document starts with a character that is not whitespace and
closes nothing. -/
theorem spell_head (v : Json) :
    ∃ c t, Json.spell v = c :: t ∧ wsChar c = false ∧ c ≠ ']' ∧ c ≠ '}' := by
  cases v with
  | null => refine ⟨'n', _, rfl, ?_, ?_, ?_⟩ <;> decide
  | bool b =>
    cases b with
    | false => refine ⟨'f', _, rfl, ?_, ?_, ?_⟩ <;> decide
    | true => refine ⟨'t', _, rfl, ?_, ?_, ?_⟩ <;> decide
  | str s => refine ⟨'"', _, rfl, ?_, ?_, ?_⟩ <;> decide
  | arr a => refine ⟨'[', _, rfl, ?_, ?_, ?_⟩ <;> decide
  | obj o => refine ⟨'{', _, rfl, ?_, ?_, ?_⟩ <;> decide
  | num q =>
    by_cases hneg : q.num < 0
    · refine ⟨'-', natDigs q.num.natAbs, ?_, by decide, by decide, by decide⟩
      simp [Json.spell, spellNum, spellInt, hneg]
    · obtain ⟨d0, dt, hds⟩ : ∃ d0 dt, natDigs q.num.natAbs = d0 :: dt := by
        cases hnd : natDigs q.num.natAbs with
        | nil => exact absurd hnd (natDigs_nonempty _)
        | cons x y => exact ⟨x, y, rfl⟩
      have hd := natDigs_all_digits q.num.natAbs d0 (by rw [hds]; simp)
      obtain ⟨hws, _, _, _, _, _, _, hrb, hcb, _⟩ := digit_head_facts hd
      refine ⟨d0, dt, ?_, hws, hrb, hcb⟩
      simp [Json.spell, spellNum, spellInt, hneg, hds]

theorem skipWs_spell (v : Json) (x : List Char) :
    skipWs (Json.spell v ++ x) = Json.spell v ++ x := by
  obtain ⟨c, t, hct, hws, _, _⟩ := spell_head v
  rw [hct, List.cons_append, skipWs_cons _ _ hws]

theorem skipWs_itemsA (a : JArr) (d : Char) (hd : wsChar d = false) (x : List Char) :
    skipWs (JArr.spellItems a ++ d :: x) = JArr.spellItems a ++ d :: x := by
  cases a with
  | nil => simp only [JArr.spellItems, List.nil_append]; exact skipWs_cons _ _ hd
  | cons h t =>
    obtain ⟨c, t', hct, hws, _, _⟩ := spell_head h
    simp only [JArr.spellItems, List.append_assoc, hct, List.cons_append]
    exact skipWs_cons _ _ hws

/-- `numStop` holds after any printed continuation (`,`, `]`, `}` or the
document end). -/
theorem numStop_moreA (t : JArr) (d : Char)
    (hd : digitChar d = false ∧ d ≠ '.' ∧ d ≠ 'e' ∧ d ≠ 'E') (x : List Char) :
    numStop (JArr.spellMore t ++ d :: x) := by
  cases t with
  | nil => exact hd
  | cons h tl => exact (by decide : digitChar ',' = false ∧ ',' ≠ '.' ∧ ',' ≠ 'e' ∧ ',' ≠ 'E')

theorem numStop_moreO (t : JObj) (d : Char)
    (hd : digitChar d = false ∧ d ≠ '.' ∧ d ≠ 'e' ∧ d ≠ 'E') (x : List Char) :
    numStop (JObj.spellMore t ++ d :: x) := by
  cases t with
  | nil => exact hd
  | cons k v tl =>
    exact (by decide : digitChar ',' = false ∧ ',' ≠ '.' ∧ ',' ≠ 'e' ∧ ',' ≠ 'E')

theorem den_one_cast {q : ℚ} (h : q.den = 1) : (q.num : ℚ) = q := by
  conv_rhs => rw [← Rat.num_div_den q]
  rw [h]
  norm_num

/-- Dispatch: a value whose input starts with a sign or digit parses through
`readNum`. -/
theorem readVal_viaNum (fuel : Nat) (c : Char) (t : List Char)
    (hws : wsChar c = false) (hn : c ≠ 'n') (ht : c ≠ 't') (hf : c ≠ 'f')
    (hq : c ≠ '"') (hlb : c ≠ '[') (hob : c ≠ '{')
    (hg : (c = '-' || digitChar c) = true) :
    readVal (fuel + 1) (c :: t) = (readNum (c :: t)).map fun p => (.num p.1, p.2) := by
  rw [readVal, skipWs_cons _ _ hws]
  simp only []
  rw [if_neg hn, if_neg ht, if_neg hf, if_neg hq, if_neg hlb, if_neg hob]
  rw [if_pos (by simpa using hg)]

theorem skipWs_itemsO (o : JObj) (d : Char) (hd : wsChar d = false) (x : List Char) :
    skipWs (JObj.spellItems o ++ d :: x) = JObj.spellItems o ++ d :: x := by
  cases o with
  | nil => simp only [JObj.spellItems, List.nil_append]; exact skipWs_cons _ _ hd
  | cons k v t =>
    simp only [JObj.spellItems, spellStr, List.cons_append, List.append_assoc]
    exact skipWs_cons _ _ (by decide)

/-! The structural round-trip, by mutual induction over the document. -/

mutual

theorem rtV : ∀ (v : Json) (n : Nat) (rest : List Char), Json.intish v → numStop rest →
    readVal (n + Json.rfuel v) (Json.spell v ++ rest) = some (v, rest)
  | .null, n, rest, _, _ => rfl
  | .bool true, n, rest, _, _ => rfl
  | .bool false, n, rest, _, _ => rfl
  | .num q, n, rest, hint, hstop => by
    have hden : q.den = 1 := hint
    by_cases hneg : q.num < 0
    · rw [show Json.spell (.num q) ++ rest = '-' :: (natDigs q.num.natAbs ++ rest) from by
        simp [Json.spell, spellNum, spellInt, hneg]]
      rw [show n + Json.rfuel (.num q) = n + 1 from rfl]
      rw [readVal_viaNum n '-' _ (by decide) (by decide) (by decide) (by decide) (by decide)
        (by decide) (by decide) (by decide)]
      rw [show ('-' :: (natDigs q.num.natAbs ++ rest)) = spellInt q.num ++ rest from by
        simp [spellInt, hneg]]
      rw [readNum_spellInt _ _ hstop, Option.map_some', den_one_cast hden]
    · obtain ⟨d0, dt, hds⟩ : ∃ d0 dt, natDigs q.num.natAbs = d0 :: dt := by
        cases hnd : natDigs q.num.natAbs with
        | nil => exact absurd hnd (natDigs_nonempty _)
        | cons x y => exact ⟨x, y, rfl⟩
      have hd := natDigs_all_digits q.num.natAbs d0 (by rw [hds]; simp)
      obtain ⟨hws, hhn, hht, hhf, hhq, hhlb, hhob, _, _, _⟩ := digit_head_facts hd
      rw [show Json.spell (.num q) ++ rest = d0 :: (dt ++ rest) from by
        simp [Json.spell, spellNum, spellInt, hneg, hds]]
      rw [show n + Json.rfuel (.num q) = n + 1 from rfl]
      rw [readVal_viaNum n d0 _ hws hhn hht hhf hhq hhlb hhob (by simp [hd])]
      rw [show (d0 :: (dt ++ rest)) = spellInt q.num ++ rest from by
        simp [spellInt, hneg, hds]]
      rw [readNum_spellInt _ _ hstop, Option.map_some', den_one_cast hden]
  | .str s, n, rest, _, _ => by
    rw [show n + Json.rfuel (.str s) = n + 1 from rfl]
    rw [show Json.spell (.str s) ++ rest = '"' :: (escBody s.data ++ ('"' :: rest)) from by
      simp [Json.spell, spellStr]]
    rw [readVal, skipWs_cons _ _ (by decide)]
    simp only []
    rw [if_neg (by decide), if_neg (by decide), if_neg (by decide)]
    simp only [if_true]
    rw [readStr_spellStr, Option.map_some']
  | .arr a, n, rest, hint, _ => by
    rw [show Json.spell (.arr a) ++ rest = '[' :: (JArr.spellItems a ++ (']' :: rest)) from by
      simp [Json.spell]]
    rw [show n + Json.rfuel (.arr a) = (n + JArr.rfuelA a) + 1 from rfl]
    rw [readVal, skipWs_cons _ _ (by decide)]
    simp only []
    rw [if_neg (by decide), if_neg (by decide), if_neg (by decide), if_neg (by decide)]
    simp only [if_true]
    rw [skipWs_itemsA a ']' (by decide) rest]
    rw [rtA a n rest hint, Option.map_some']
  | .obj o, n, rest, hint, _ => by
    rw [show Json.spell (.obj o) ++ rest = '{' :: (JObj.spellItems o ++ ('}' :: rest)) from by
      simp [Json.spell]]
    rw [show n + Json.rfuel (.obj o) = (n + JObj.rfuelO o) + 1 from rfl]
    rw [readVal, skipWs_cons _ _ (by decide)]
    simp only []
    rw [if_neg (by decide), if_neg (by decide), if_neg (by decide), if_neg (by decide),
      if_neg (by decide)]
    simp only [if_true]
    rw [skipWs_itemsO o '}' (by decide) rest]
    rw [rtO o n rest hint, Option.map_some']

theorem rtA : ∀ (a : JArr) (n : Nat) (rest : List Char), JArr.intish a →
    readArr (n + JArr.rfuelA a) (JArr.spellItems a ++ ']' :: rest) = some (a, rest)
  | .nil, n, rest, _ => rfl
  | .cons h t, n, rest, hint => by
    obtain ⟨hih, hit⟩ : Json.intish h ∧ JArr.intish t := hint
    obtain ⟨c, t', hct, hws, hrb, _⟩ := spell_head h
    rw [show JArr.spellItems (.cons h t) ++ ']' :: rest
        = Json.spell h ++ (JArr.spellMore t ++ ']' :: rest) from by
      simp [JArr.spellItems]]
    rw [show n + JArr.rfuelA (.cons h t) = (n + (Json.rfuel h + JArr.rfuelA t)) + 1 from rfl]
    rw [hct, List.cons_append, readArr.eq_def]
    simp only []
    rw [if_neg hrb]
    rw [← List.cons_append, ← hct]
    rw [show n + (Json.rfuel h + JArr.rfuelA t) = (n + JArr.rfuelA t) + Json.rfuel h from by
      omega]
    rw [rtV h (n + JArr.rfuelA t) _ hih (numStop_moreA t ']' (by decide) rest)]
    rw [Option.some_bind]
    simp only []
    rw [show (n + JArr.rfuelA t) + Json.rfuel h = (n + Json.rfuel h) + JArr.rfuelA t from by
      omega]
    rw [rtAM t (n + Json.rfuel h) rest hit]
    rfl

theorem rtAM : ∀ (t : JArr) (n : Nat) (rest : List Char), JArr.intish t →
    readArrMore (n + JArr.rfuelA t) (JArr.spellMore t ++ ']' :: rest) = some (t, rest)
  | .nil, n, rest, _ => rfl
  | .cons h t, n, rest, hint => by
    obtain ⟨hih, hit⟩ : Json.intish h ∧ JArr.intish t := hint
    rw [show JArr.spellMore (.cons h t) ++ ']' :: rest
        = ',' :: (Json.spell h ++ (JArr.spellMore t ++ ']' :: rest)) from by
      simp [JArr.spellMore]]
    rw [show n + JArr.rfuelA (.cons h t) = (n + (Json.rfuel h + JArr.rfuelA t)) + 1 from rfl]
    rw [readArrMore, skipWs_cons _ _ (by decide)]
    simp only []
    rw [if_neg (by decide)]
    simp only [if_true]
    rw [show n + (Json.rfuel h + JArr.rfuelA t) = (n + JArr.rfuelA t) + Json.rfuel h from by
      omega]
    rw [rtV h (n + JArr.rfuelA t) _ hih (numStop_moreA t ']' (by decide) rest)]
    rw [Option.some_bind]
    simp only []
    rw [show (n + JArr.rfuelA t) + Json.rfuel h = (n + Json.rfuel h) + JArr.rfuelA t from by
      omega]
    rw [rtAM t (n + Json.rfuel h) rest hit]
    rfl

theorem rtO : ∀ (o : JObj) (n : Nat) (rest : List Char), JObj.intish o →
    readObj (n + JObj.rfuelO o) (JObj.spellItems o ++ '}' :: rest) = some (o, rest)
  | .nil, n, rest, _ => rfl
  | .cons k v t, n, rest, hint => by
    obtain ⟨hiv, hit⟩ : Json.intish v ∧ JObj.intish t := hint
    rw [show JObj.spellItems (.cons k v t) ++ '}' :: rest
        = '"' :: (escBody k.data ++ ('"' :: (':' ::
            (Json.spell v ++ (JObj.spellMore t ++ '}' :: rest))))) from by
      simp [JObj.spellItems, spellStr]]
    rw [show n + JObj.rfuelO (.cons k v t)
        = ((n + (Json.rfuel v + JObj.rfuelO t)) + 1) + 1 from rfl]
    rw [readObj.eq_def]
    simp only []
    rw [if_neg (by decide)]
    rw [readMember, skipWs_cons _ _ (by decide)]
    simp only []
    simp only [if_true]
    rw [readStr_spellStr, Option.some_bind]
    simp only []
    rw [skipWs_cons _ _ (by decide)]
    simp only []
    simp only [if_true]
    rw [show n + (Json.rfuel v + JObj.rfuelO t) = (n + JObj.rfuelO t) + Json.rfuel v from by
      omega]
    rw [rtV v (n + JObj.rfuelO t) _ hiv (numStop_moreO t '}' (by decide) rest)]
    rw [Option.some_bind]
    simp only []
    rw [Option.some_bind]
    simp only []
    rw [show ((n + JObj.rfuelO t) + Json.rfuel v) + 1
        = (n + Json.rfuel v + 1) + JObj.rfuelO t from by omega]
    rw [rtOM t (n + Json.rfuel v + 1) rest hit]
    rfl

theorem rtOM : ∀ (t : JObj) (n : Nat) (rest : List Char), JObj.intish t →
    readObjMore (n + JObj.rfuelO t) (JObj.spellMore t ++ '}' :: rest) = some (t, rest)
  | .nil, n, rest, _ => rfl
  | .cons k v t, n, rest, hint => by
    obtain ⟨hiv, hit⟩ : Json.intish v ∧ JObj.intish t := hint
    rw [show JObj.spellMore (.cons k v t) ++ '}' :: rest
        = ',' :: ('"' :: (escBody k.data ++ ('"' :: (':' ::
            (Json.spell v ++ (JObj.spellMore t ++ '}' :: rest)))))) from by
      simp [JObj.spellMore, spellStr]]
    rw [show n + JObj.rfuelO (.cons k v t)
        = ((n + (Json.rfuel v + JObj.rfuelO t)) + 1) + 1 from rfl]
    rw [readObjMore, skipWs_cons _ _ (by decide)]
    simp only []
    rw [if_neg (by decide)]
    simp only [if_true]
    rw [readMember, skipWs_cons _ _ (by decide)]
    simp only []
    simp only [if_true]
    rw [readStr_spellStr, Option.some_bind]
    simp only []
    rw [skipWs_cons _ _ (by decide)]
    simp only []
    simp only [if_true]
    rw [show n + (Json.rfuel v + JObj.rfuelO t) = (n + JObj.rfuelO t) + Json.rfuel v from by
      omega]
    rw [rtV v (n + JObj.rfuelO t) _ hiv (numStop_moreO t '}' (by decide) rest)]
    rw [Option.some_bind]
    simp only []
    rw [Option.some_bind]
    simp only []
    rw [show ((n + JObj.rfuelO t) + Json.rfuel v) + 1
        = (n + Json.rfuel v + 1) + JObj.rfuelO t from by omega]
    rw [rtOM t (n + Json.rfuel v + 1) rest hit]
    rfl

end

/-! Fuel bound: the printed length (times three) dominates the fuel needed. -/

theorem spell_len_pos (v : Json) : 1 ≤ (Json.spell v).length := by
  obtain ⟨c, t, hct, _, _, _⟩ := spell_head v
  rw [hct]
  simp

mutual

theorem rfuel_le : ∀ v : Json, Json.rfuel v ≤ 3 * (Json.spell v).length
  | .null => by simp [Json.rfuel, Json.spell]
  | .bool true => by simp [Json.rfuel, Json.spell]
  | .bool false => by simp [Json.rfuel, Json.spell]
  | .num q => by
    have := spell_len_pos (.num q)
    simp only [Json.rfuel]
    omega
  | .str s => by
    have := spell_len_pos (.str s)
    simp only [Json.rfuel]
    omega
  | .arr a => by
    have h := rfuelA_le_items a
    simp only [Json.rfuel, Json.spell, List.length_cons, List.length_append]
    omega
  | .obj o => by
    have h := rfuelO_le_items o
    simp only [Json.rfuel, Json.spell, List.length_cons, List.length_append]
    omega

theorem rfuelA_le_items : ∀ a : JArr, JArr.rfuelA a ≤ 3 * (JArr.spellItems a).length + 4
  | .nil => by simp [JArr.rfuelA, JArr.spellItems]
  | .cons h t => by
    have h1 := rfuel_le h
    have h2 := rfuelA_le_more t
    simp only [JArr.rfuelA, JArr.spellItems, List.length_append]
    omega

theorem rfuelA_le_more : ∀ a : JArr, JArr.rfuelA a ≤ 3 * (JArr.spellMore a).length + 3
  | .nil => by simp [JArr.rfuelA, JArr.spellMore]
  | .cons h t => by
    have h1 := rfuel_le h
    have h2 := rfuelA_le_more t
    simp only [JArr.rfuelA, JArr.spellMore, List.length_cons, List.length_append]
    omega

theorem rfuelO_le_items : ∀ o : JObj, JObj.rfuelO o ≤ 3 * (JObj.spellItems o).length + 4
  | .nil => by simp [JObj.rfuelO, JObj.spellItems]
  | .cons k v t => by
    have h1 := rfuel_le v
    have h2 := rfuelO_le_more t
    have h3 : 2 ≤ (spellStr k).length := by simp [spellStr]
    simp only [JObj.rfuelO, JObj.spellItems, List.length_cons, List.length_append]
    omega

theorem rfuelO_le_more : ∀ o : JObj, JObj.rfuelO o ≤ 3 * (JObj.spellMore o).length + 3
  | .nil => by simp [JObj.rfuelO, JObj.spellMore]
  | .cons k v t => by
    have h1 := rfuel_le v
    have h2 := rfuelO_le_more t
    have h3 : 2 ≤ (spellStr k).length := by simp [spellStr]
    simp only [JObj.rfuelO, JObj.spellMore, List.length_cons, List.length_append]
    omega

end

/-- The codec round-trip: re-parsing a serialized document recovers it
exactly, for every document whose numbers are integral. -/
theorem jsonRead_jsonSpell (v : Json) (h : Json.intish v) :
    jsonRead (jsonSpell v) = some v := by
  unfold jsonRead jsonSpell
  rw [show (String.mk (Json.spell v)).data = Json.spell v from rfl]
  have hb := rfuel_le v
  rw [show 3 * (Json.spell v).length + 1
      = (3 * (Json.spell v).length + 1 - Json.rfuel v) + Json.rfuel v from by omega]
  have hrt := rtV v (3 * (Json.spell v).length + 1 - Json.rfuel v) [] h (by trivial)
  rw [List.append_nil] at hrt
  rw [hrt]
  simp [skipWs]

/-! ## JavaScript semantics helpers -/

/-- The observable fate of an `await`ed promise: it resolves with a value,
rejects (the failure raises to the caller), or never settles (an exception
thrown inside a storage callback after the executor returned leaves the
promise forever pending — the awaiting function never continues). -/
inductive JsPromise (α : Type) where
  | resolved (a : α)
  | rejected
  | pending
deriving DecidableEq

/-- JavaScript numbers in the arithmetic this program performs: exact
rationals, with `none` for `NaN`. -/
def JSNum : Type := Option ℚ

instance : DecidableEq JSNum := fun a b => (inferInstance : DecidableEq (Option ℚ)) a b

def jsN (q : ℚ) : JSNum := some q

def jsNaN : JSNum := none

/-- `Math.max` (NaN-propagating). -/
def jsMax : JSNum → JSNum → JSNum
  | some x, some y => some (max x y)
  | _, _ => none

/-- `Math.min` (NaN-propagating). -/
def jsMin : JSNum → JSNum → JSNum
  | some x, some y => some (min x y)
  | _, _ => none

def jsMul : JSNum → JSNum → JSNum
  | some x, some y => some (x * y)
  | _, _ => none

/-- Division.  `0 / 0` is `NaN`; a nonzero numerator over zero (`±Infinity`)
does not arise at this program's call site (the numerator counts a subset of
what the denominator counts), so it is collapsed into `none` as well. -/
def jsDiv : JSNum → JSNum → JSNum
  | some x, some y => if y = 0 then none else some (x / y)
  | _, _ => none

/-- `Math.round` (half toward positive infinity). -/
def jsRound : JSNum → JSNum
  | some x => some ((⌊x + 1/2⌋ : ℤ) : ℚ)
  | none => none

/-- Property access `v.key` on a parsed JSON value: access on `null` throws
a TypeError; objects look the key up (`none` = `undefined` when absent);
every other primitive yields `undefined`. -/
def jsGetField : Json → String → Except Unit (Option Json)
  | .null, _ => .error ()
  | .obj o, k => .ok (JObj.find o k)
  | _, _ => .ok none

/-- Truthiness of a possibly-`undefined` value. -/
def jsTruthyOpt : Option Json → Bool
  | none => false
  | some j => j.truthy

/-- `(v || dflt).trim()`: a falsy (or undefined) value falls back to the
default string; a truthy string is trimmed; a truthy non-string has no
`.trim` method, so the call throws. -/
def jsStrOrTrim (v : Option Json) (dflt : String) : Except Unit String :=
  if jsTruthyOpt v then
    match v with
    | some (.str s) => .ok (jsTrim s)
    | _ => .error ()
  else .ok (jsTrim dflt)

/-- `Array.isArray(v) ? v.filter(x => x && x.trim()).map(x => x.trim()) : []`:
falsy entries and whitespace-only strings are dropped, kept strings are
trimmed, and a truthy non-string throws (no `.trim` method). -/
def jsTrimListGo : JArr → Except Unit (List String)
  | .nil => .ok []
  | .cons j t =>
    if j.truthy then
      match j with
      | .str s =>
        if jsTrim s = "" then jsTrimListGo t
        else (jsTrimListGo t).map fun l => jsTrim s :: l
      | _ => .error ()
    else jsTrimListGo t

def jsTrimList : Option Json → Except Unit (List String)
  | some (.arr a) => jsTrimListGo a
  | _ => .ok []

/-- `(Array.isArray(v) ? v : []).filter(x => x && x.trim())`: like
`jsTrimList` but the kept strings stay untrimmed. -/
def jsKeepListGo : JArr → Except Unit (List String)
  | .nil => .ok []
  | .cons j t =>
    if j.truthy then
      match j with
      | .str s =>
        if jsTrim s = "" then jsKeepListGo t
        else (jsKeepListGo t).map fun l => s :: l
      | _ => .error ()
    else jsKeepListGo t

def jsKeepList : Option Json → Except Unit (List String)
  | some (.arr a) => jsKeepListGo a
  | _ => .ok []

/-- Untyped pass-through: where the TypeScript cast lets a non-string JSON
value flow into a `string` field, the model displays its JSON rendering (no
claim depends on those values). -/
def jsAsStr : Json → String
  | .str s => s
  | j => jsonSpell j

/-- JS `ToNumber` on a parsed JSON value (modelled fragment: numbers,
booleans, `null`; strings re-parse as numeric literals, whitespace-only is
`0`, anything else `NaN`; arrays/objects are collapsed to `NaN`). -/
def toNumber : Json → JSNum
  | .num q => some q
  | .bool true => some 1
  | .bool false => some 0
  | .null => some 0
  | .str s =>
    if trimChars s.data = [] then some 0
    else
      match jsonRead (jsTrim s) with
      | some (.num q) => some q
      | _ => none
  | .arr _ => none
  | .obj _ => none

/-- `v || 0` followed by coercion to number, as in `parsed.score || 0`. -/
def jsNumOrZero (v : Option Json) : JSNum :=
  if jsTruthyOpt v then
    match v with
    | some j => toNumber j
    | none => some 0
  else some 0

/-! ## The key-value stores and the storage adapter

`World` carries both physical stores and the availability flags the code
branches on.  The sources test `typeof chrome !== "undefined" &&
chrome.storage` (and sometimes `&& chrome.storage.sync`); in a real Chrome
profile these are present together (both come with the `storage`
permission), so a single `chromeAvail` flag models every such check.
`syncFail` models `chrome.runtime.lastError` being set by synchronized
storage operations.  `chrome.storage.sync` holds JSON-serializable values
(`Json`); `localStorage` holds strings. -/

structure World where
  chromeAvail : Bool
  syncFail : Bool
  sync : List (String × Json)
  webLocal : List (String × String)
deriving DecidableEq

def kvGet {α : Type} (m : List (String × α)) (k : String) : Option α :=
  (m.find? fun p => p.1 = k).map Prod.snd

def kvPut {α : Type} (m : List (String × α)) (k : String) (v : α) : List (String × α) :=
  match m with
  | [] => [(k, v)]
  | (k0, v0) :: t => if k0 = k then (k, v) :: t else (k0, v0) :: kvPut t k v

def kvPutAll {α : Type} (m : List (String × α)) (entries : List (String × α)) :
    List (String × α) :=
  entries.foldl (fun acc p => kvPut acc p.1 p.2) m

def kvDel {α : Type} (m : List (String × α)) (k : String) : List (String × α) :=
  m.filter fun p => !(p.1 = k)

theorem kvGet_kvPut {α : Type} (m : List (String × α)) (k : String) (v : α) :
    kvGet (kvPut m k v) k = some v := by
  induction m with
  | nil => simp [kvGet, kvPut, List.find?]
  | cons p t ih =>
    obtain ⟨k0, v0⟩ := p
    by_cases h : k0 = k
    · simp [kvGet, kvPut, h, List.find?]
    · simp only [kvPut, if_neg h]
      simp only [kvGet, List.find?] at ih ⊢
      rw [show (decide (k0 = k)) = false by simp [h]]
      exact ih

/-- The well-known key of the master-resume record. -/
def MASTER_RESUME : String := "resumematch_master_resume"

/-- `saveToStorage(key, value)` — src/client/services/resumeParser.ts (both
storage-module revisions carry the same text).  With `chrome.storage`
present the value is stringified into the synchronized store and
`chrome.runtime.lastError` rejects the promise; otherwise the string goes
to `localStorage`. -/
def saveToStorage (w : World) (key : String) (value : Json) : JsPromise World :=
  if w.chromeAvail then
    if w.syncFail then .rejected
    else .resolved { w with sync := kvPut w.sync key (.str (jsonSpell value)) }
  else .resolved { w with webLocal := kvPut w.webLocal key (jsonSpell value) }

/-- `getFromStorage(key)` — same file.  Chrome branch: the callback resolves
`value ? JSON.parse(value) : null`; `lastError` rejects; a stored string
that fails `JSON.parse` throws inside the callback, so the promise never
settles (`pending`).  A stored non-string coerces through its string form
(numbers and booleans survive; arrays/objects generally do not parse back
and are modelled `pending`).  Local branch: `JSON.parse` throws
synchronously in the async function, so the promise rejects. -/
def getFromStorage (w : World) (key : String) : JsPromise (Option Json) :=
  if w.chromeAvail then
    if w.syncFail then .rejected
    else
      match kvGet w.sync key with
      | none => .resolved none
      | some v =>
        if v.truthy then
          match v with
          | .str s =>
            match jsonRead s with
            | some j => .resolved (some j)
            | none => .pending
          | .num q => .resolved (some (.num q))
          | .bool b => .resolved (some (.bool b))
          | _ => .pending
        else .resolved none
  else
    match kvGet w.webLocal key with
    | none => .resolved none
    | some s =>
      if s = "" then .resolved none
      else
        match jsonRead s with
        | some j => .resolved (some j)
        | none => .rejected

/-- `removeFromStorage(key)` — same file. -/
def removeFromStorage (w : World) (key : String) : JsPromise World :=
  if w.chromeAvail then
    if w.syncFail then .rejected
    else .resolved { w with sync := kvDel w.sync key }
  else .resolved { w with webLocal := kvDel w.webLocal key }

/-- `setMasterResume(resume)` — identical in both accessor revisions
(lines 349–371 and 535–557).  `localStorage` is written first,
unconditionally; then, when `chrome.storage.sync` is available, the JSON
string is mirrored there inside a `try`/`catch` that swallows the
rejection. -/
def setMasterResume (w : World) (resume : Json) : JsPromise World :=
  let w1 := { w with webLocal := kvPut w.webLocal MASTER_RESUME (jsonSpell resume) }
  if w1.chromeAvail then
    if w1.syncFail then .resolved w1
    else .resolved { w1 with sync := kvPut w1.sync MASTER_RESUME (.str (jsonSpell resume)) }
  else .resolved w1

/-- `getMasterResume()` — first revision (lines 314–347): reads through
`getFromStorage` under a `try`/`catch` (a rejection is logged and falls
through), returns the record only when the parsed value is truthy (the
`if (result)` gate at line 319 — a record parsing to `null`/`0`/`false`/`""`
falls through), then falls back to `localStorage`, replicating a record
found there into the synchronized store via `saveToStorage` with the error
swallowed.  An unparseable synchronized record leaves `getFromStorage`
pending, so this function never settles there. -/
def getMasterResume1 (w : World) : JsPromise (Option Json × World) :=
  let viaSync : Option (JsPromise (Option Json × World)) :=
    if w.chromeAvail then
      match getFromStorage w MASTER_RESUME with
      | .resolved (some r) => if r.truthy then some (.resolved (some r, w)) else none
      | .resolved none => none
      | .rejected => none
      | .pending => some .pending
    else none
  match viaSync with
  | some out => out
  | none =>
    match kvGet w.webLocal MASTER_RESUME with
    | none => .resolved (none, w)
    | some stored =>
      if stored = "" then .resolved (none, w)
      else
        match jsonRead stored with
        | none => .resolved (none, w)
        | some resume =>
          let w2 :=
            if w.chromeAvail then
              match saveToStorage w MASTER_RESUME resume with
              | .resolved w3 => w3
              | _ => w
            else w
          .resolved (some resume, w2)

/-- `getMasterResume()` — second revision (lines 477–533): reads
`chrome.storage.sync` through an inline promise whose callback catches the
`JSON.parse` failure and resolves `null` (falling back) and passes a stored
non-string value through as-is; the resolved record is returned only when
truthy (the `if (result)` gate at line 502 — a record parsing to
`null`/`0`/`false`/`""` falls through).  Otherwise it falls back to
`localStorage`, replicating via `setMasterResume` (which also rewrites
`localStorage`) with the error swallowed. -/
def getMasterResume2 (w : World) : JsPromise (Option Json × World) :=
  let viaSync : Option (JsPromise (Option Json × World)) :=
    if w.chromeAvail then
      if w.syncFail then none
      else
        match kvGet w.sync MASTER_RESUME with
        | none => none
        | some v =>
          if v.truthy then
            match v with
            | .str s =>
              match jsonRead s with
              | some r => if r.truthy then some (.resolved (some r, w)) else none
              | none => none
            | other => some (.resolved (some other, w))
          else none
    else none
  match viaSync with
  | some out => out
  | none =>
    match kvGet w.webLocal MASTER_RESUME with
    | none => .resolved (none, w)
    | some stored =>
      if stored = "" then .resolved (none, w)
      else
        match jsonRead stored with
        | none => .resolved (none, w)
        | some resume =>
          let w2 :=
            if w.chromeAvail then
              match setMasterResume w resume with
              | .resolved w3 => w3
              | _ => w
            else w
          .resolved (some resume, w2)

/-! ## The resume document (from `@/types` as used across the sources) -/

structure ContactInfo where
  name : String
  email : String
  phone : String
  location : String
  website : String
deriving DecidableEq

structure Experience where
  title : String
  company : String
  startDate : String
  endDate : Option String
  isCurrentlyWorking : Bool
  description : List String
deriving DecidableEq

structure Education where
  degree : String
  field : String
  institution : String
  graduationDate : String
deriving DecidableEq

structure ResumeData where
  contact : ContactInfo
  summary : String
  skills : List String
  experience : List Experience
  education : List Education
deriving DecidableEq

def JObj.ofList : List (String × Json) → JObj
  | [] => .nil
  | (k, v) :: t => .cons k v (JObj.ofList t)

def strArr (l : List String) : Json :=
  .arr (JArr.ofList (l.map Json.str))

/-- The JSON image of a contact block (field order = object-literal order in
`parseResumeText`). -/
def ContactInfo.toJson (c : ContactInfo) : Json :=
  .obj (JObj.ofList [("name", .str c.name), ("email", .str c.email),
    ("phone", .str c.phone), ("location", .str c.location), ("website", .str c.website)])

/-- The JSON image of an experience entry.  An `undefined` `endDate` is
omitted entirely, as `JSON.stringify` drops `undefined` members. -/
def Experience.toJson (e : Experience) : Json :=
  .obj (JObj.ofList
    ([("title", .str e.title), ("company", .str e.company),
      ("startDate", .str e.startDate)] ++
     (match e.endDate with
      | some d => [("endDate", .str d)]
      | none => []) ++
     [("isCurrentlyWorking", .bool e.isCurrentlyWorking),
      ("description", strArr e.description)]))

def Education.toJson (e : Education) : Json :=
  .obj (JObj.ofList [("degree", .str e.degree), ("field", .str e.field),
    ("institution", .str e.institution), ("graduationDate", .str e.graduationDate)])

/-- The JSON image of a whole resume document. -/
def ResumeData.toJson (r : ResumeData) : Json :=
  .obj (JObj.ofList
    [("contact", r.contact.toJson), ("summary", .str r.summary),
     ("skills", strArr r.skills),
     ("experience", .arr (JArr.ofList (r.experience.map Experience.toJson))),
     ("education", .arr (JArr.ofList (r.education.map Education.toJson)))])

theorem JArr.intish_ofList_arr (l : List Json) (h : ∀ j ∈ l, Json.intish j) :
    JArr.intish (JArr.ofList l) := by
  induction l with
  | nil => trivial
  | cons x t ih =>
    exact ⟨h x (by simp), ih fun j hj => h j (by simp [hj])⟩

theorem JObj.intish_ofList_obj (l : List (String × Json)) (h : ∀ p ∈ l, Json.intish p.2) :
    JObj.intish (JObj.ofList l) := by
  induction l with
  | nil => trivial
  | cons x t ih =>
    obtain ⟨k, v⟩ := x
    exact ⟨h (k, v) (by simp), ih fun p hp => h p (by simp [hp])⟩

theorem strArr_intish (l : List String) : Json.intish (strArr l) := by
  refine JArr.intish_ofList_arr _ fun j hj => ?_
  obtain ⟨s, _, rfl⟩ := List.mem_map.mp hj
  trivial

/-- A resume document's JSON image carries no numbers at all, so it is in
the integral fragment the round-trip covers. -/
theorem ResumeData.toJson_intish (r : ResumeData) : Json.intish r.toJson := by
  refine JObj.intish_ofList_obj _ ?_
  intro p hp
  simp only [List.mem_cons, List.not_mem_nil, or_false] at hp
  rcases hp with rfl | rfl | rfl | rfl | rfl
  · refine JObj.intish_ofList_obj _ ?_
    intro q hq
    simp only [List.mem_cons, List.not_mem_nil, or_false] at hq
    rcases hq with rfl | rfl | rfl | rfl | rfl <;> trivial
  · trivial
  · exact strArr_intish _
  · refine JArr.intish_ofList_arr _ ?_
    intro j hj
    obtain ⟨e, _, rfl⟩ := List.mem_map.mp hj
    refine JObj.intish_ofList_obj _ ?_
    intro q hq
    simp only [List.mem_append, List.mem_cons, List.not_mem_nil, or_false] at hq
    rcases hq with ((rfl | rfl | rfl) | hq) | (rfl | rfl)
    · trivial
    · trivial
    · trivial
    · cases hde : e.endDate with
      | none => rw [hde] at hq; simp at hq
      | some d =>
        rw [hde] at hq
        simp only [List.mem_cons, List.not_mem_nil, or_false] at hq
        subst hq
        trivial
    · trivial
    · exact strArr_intish _
  · refine JArr.intish_ofList_arr _ ?_
    intro j hj
    obtain ⟨e, _, rfl⟩ := List.mem_map.mp hj
    refine JObj.intish_ofList_obj _ ?_
    intro q hq
    simp only [List.mem_cons, List.not_mem_nil, or_false] at hq
    rcases hq with rfl | rfl | rfl | rfl <;> trivial

/-! ## The capture click handlers (content scripts)

Page inputs (markup, rendered text, URL, timestamp, heuristic DOM record)
are parameters: the DOM is outside the model.  `saved` is a successful
completion; `alerted` is the `catch` path, which shows an `alert(...)` to
the user and leaves the stores as they were when the failure hit. -/

inductive CaptureResult where
  | saved (w : World)
  | alerted (w : World)
deriving DecidableEq

/-- The `injectButton` click handler of `src/unnamed/part_002` (earlier
content-script revision): four sequential `saveToStorage` calls (the fourth
only when the heuristic extraction produced a record), each of which falls
back to `localStorage` when `chrome.storage` is absent. -/
def capture2 (w : World) (pageHTML pageText pageURL : String)
    (basicJobData : Option Json) : CaptureResult :=
  match saveToStorage w "currentPageHTML" (.str pageHTML) with
  | .resolved w1 =>
    match saveToStorage w1 "currentPageText" (.str pageText) with
    | .resolved w2 =>
      match saveToStorage w2 "currentPageURL" (.str pageURL) with
      | .resolved w3 =>
        match basicJobData with
        | none => .saved w3
        | some jd =>
          match saveToStorage w3 "currentJobData" jd with
          | .resolved w4 => .saved w4
          | _ => .alerted w3
      | _ => .alerted w2
    | _ => .alerted w1
  | _ => .alerted w

/-- The `injectButton` click handler of `src/unnamed/part_003` (later
revision, same text in `part_001`): one batched `chrome.storage.sync.set`
of all keys (raw values, not re-stringified), rejecting outright — with an
`alert` to the user and no fallback store — when `chrome.storage.sync` is
unavailable or errors. -/
def capture3 (w : World) (pageHTML pageText pageURL analyzedAt : String)
    (basicJobData : Option Json) : CaptureResult :=
  let entries : List (String × Json) :=
    [("currentPageHTML", .str pageHTML), ("currentPageText", .str pageText),
     ("currentPageURL", .str pageURL), ("currentPageAnalyzedAt", .str analyzedAt)] ++
    (match basicJobData with
     | some jd => [("currentJobData", jd)]
     | none => [])
  if w.chromeAvail then
    if w.syncFail then .alerted w
    else .saved { w with sync := kvPutAll w.sync entries }
  else .alerted w

/-! ## The AI client (src/client/services/gemini.ts)

Each operation is a function of its inputs plus the endpoint's outcome
(`GenResult`): the network call itself is the oracle parameter.
`extractedAt` (a wall-clock `Date`) is dropped from the model. -/

structure JobDescription where
  title : String
  company : String
  location : String
  description : String
  requirements : List String
  skills : List String
deriving DecidableEq

/-- The outcome of `await model.generateContent(prompt)`. -/
inductive GenResult where
  | err
  | ok (text : String)
deriving DecidableEq

/-- Direct `JSON.parse`, then the brace-delimited substring — the shared
response-recovery ladder of `parseJobFromHTML`, `tailorResumeForJob` (first
revision) and `calculateATSScore` (first revision). -/
def directOrBraces (text : String) : Option Json :=
  match jsonRead text with
  | some p => some p
  | none =>
    match jsBraceMatch text with
    | some core => jsonRead core
    | none => none

/-- The text-content fallback of `parseJobFromHTML`:
`html.replace(/<[^>]*>/g, " ").replace(/\s+/g, " ").trim().substring(0, 2000)`. -/
def textContentOf (html : String) : String :=
  String.mk ((trimChars (squashWs (stripTags html.data))).take 2000)

/-- The documented fallback object of `parseJobFromHTML`. -/
def fallbackJob (html : String) : JobDescription :=
  { title := "Job Position", company := "Company", location := "",
    description := textContentOf html, requirements := [], skills := [] }

/-- The field normalization `parseJobFromHTML` applies to a parsed response
(first revision, lines 99–115): `(parsed.f || dflt).trim()` for the string
fields and filter-and-trim for the two lists; any TypeError inside it is
caught by the enclosing `try` (the caller falls back). -/
def normalizeJob (parsed : Json) : Except Unit JobDescription := do
  let t ← jsGetField parsed "title"
  let title ← jsStrOrTrim t "Unknown Position"
  let c ← jsGetField parsed "company"
  let company ← jsStrOrTrim c "Unknown Company"
  let l ← jsGetField parsed "location"
  let location ← jsStrOrTrim l ""
  let d ← jsGetField parsed "description"
  let description ← jsStrOrTrim d ""
  let rq ← jsGetField parsed "requirements"
  let requirements ← jsTrimList rq
  let sk ← jsGetField parsed "skills"
  let skills ← jsTrimList sk
  pure { title := title, company := company, location := location,
         description := description, requirements := requirements, skills := skills }

/-- `parseJobFromHTML(htmlContent)` — first revision (lines 26–149), as a
function of the endpoint outcome.  Everything (call, parse ladder,
normalization) sits inside one `try`; any failure yields the documented
fallback object built from the page text. -/
def parseJobFromHTML1 (html : String) (res : GenResult) : JobDescription :=
  match res with
  | .err => fallbackJob html
  | .ok raw =>
    match directOrBraces (jsTrim raw) with
    | none => fallbackJob html
    | some parsed =>
      match normalizeJob parsed with
      | .ok j => j
      | .error _ => fallbackJob html

/-- The default object `extractJobRequirements` returns when no JSON could
be recovered (note: no `location`, no `extractedAt` — the literal at lines
203–209 omits them). -/
def defaultJobReqs (desc : String) : Json :=
  .obj (JObj.ofList
    [("title", .str "Unknown Position"), ("company", .str "Unknown Company"),
     ("description", .str desc), ("requirements", .arr .nil), ("skills", .arr .nil)])

/-- `extractJobRequirements(jobDescription)` — identical in both revisions
(lines 173–210 and 556–593).  The `generateContent` call is outside the
`try`, so an endpoint error propagates; the response is only brace-matched
(no direct-parse step), the match is parsed and returned as-is (no
normalization), and any failure yields the default object. -/
def extractJobRequirements (desc : String) (res : GenResult) : JsPromise Json :=
  match res with
  | .err => .rejected
  | .ok raw =>
    match jsBraceMatch raw with
    | some core =>
      match jsonRead core with
      | some p => .resolved p
      | none => .resolved (defaultJobReqs desc)
    | none => .resolved (defaultJobReqs desc)

/-- `v || dflt` where the result flows into a `string`-typed field: a falsy
or undefined value yields the default; a truthy value passes through
untyped (displayed via `jsAsStr`). -/
def jsOrElseStr (v : Option Json) (dflt : String) : String :=
  match v with
  | some j => if j.truthy then jsAsStr j else dflt
  | none => dflt

/-- `parsed.tailoredExperience?.find(t => t.jobTitle?.toLowerCase() ===
exp.title.toLowerCase())` — first tailoring revision.  Accessing `.find` on
a truthy non-array throws; a member whose `jobTitle` is truthy but not a
string throws when `.toLowerCase` is called on a non-function. -/
def jsFindGo1 : JArr → String → Except Unit (Option Json)
  | .nil, _ => .ok none
  | .cons t rest, title => do
    let jt ← jsGetField t "jobTitle"
    match jt with
    | some (.str s) =>
      if jsLower s = jsLower title then pure (some t) else jsFindGo1 rest title
    | some .null => jsFindGo1 rest title
    | some _ => .error ()
    | none => jsFindGo1 rest title

def jsFindTitled1 (te : Option Json) (title : String) : Except Unit (Option Json) :=
  match te with
  | none => .ok none
  | some .null => .ok none
  | some (.arr a) => jsFindGo1 a title
  | some _ => .error ()

/-- Per-entry rewrite of the experience list, first revision: the spread
keeps every field; `description` is replaced only when the matched entry's
`newBullets` is truthy and an array. -/
def tailorExps1 (te : Option Json) : List Experience → Except Unit (List Experience)
  | [] => .ok []
  | exp :: rest =>
    match jsFindTitled1 te exp.title with
    | .error e => .error e
    | .ok tailored =>
      match (match tailored with
             | none => Except.ok (none : Option Json)
             | some t => jsGetField t "newBullets") with
      | .error e => .error e
      | .ok nb =>
        match tailorExps1 te rest with
        | .error e => .error e
        | .ok tlrest =>
          .ok ({ exp with description :=
                   match nb with
                   | some (.arr l) => l.toList.map jsAsStr
                   | _ => exp.description } :: tlrest)

/-- The tailored-resume construction of the first revision (lines 277–299):
`{...masterResume, summary, experience, skills}` with
`recommendedSkillsOrder` filtered through `masterResume.skills.includes`. -/
def buildTailored1 (master : ResumeData) (parsed : Json) : Except Unit ResumeData :=
  match jsGetField parsed "tailoredSummary" with
  | .error e => .error e
  | .ok ts =>
    match jsGetField parsed "tailoredExperience" with
    | .error e => .error e
    | .ok te =>
      match tailorExps1 te master.experience with
      | .error e => .error e
      | .ok newExps =>
        match jsGetField parsed "recommendedSkillsOrder" with
        | .error e => .error e
        | .ok ro =>
          .ok { master with
            summary := jsOrElseStr ts master.summary,
            experience := newExps,
            skills :=
              match ro with
              | some (.arr l) =>
                if (Json.arr l).truthy then
                  l.toList.filterMap fun j =>
                    match j with
                    | .str s => if master.skills.contains s then some s else none
                    | _ => none
                else master.skills
              | _ => master.skills }

/-- `tailorResumeForJob(masterResume, jobDescription)` — first revision
(lines 212–307).  The endpoint call, the parse ladder and the construction
all sit inside one `try`; any failure returns the original resume. -/
def tailorResumeForJob1 (master : ResumeData) (_job : JobDescription)
    (res : GenResult) : ResumeData :=
  match res with
  | .err => master
  | .ok raw =>
    match directOrBraces (jsTrim raw) with
    | none => master
    | some parsed =>
      match buildTailored1 master parsed with
      | .ok r => r
      | .error _ => master

/-- `find(t => t.originalTitle === exp.title)` — second tailoring revision:
strict equality, no method call, so a non-string `originalTitle` simply
fails the comparison (only `t` itself being `null` throws). -/
def jsFindGo2 : JArr → String → Except Unit (Option Json)
  | .nil, _ => .ok none
  | .cons t rest, title => do
    let jt ← jsGetField t "originalTitle"
    match jt with
    | some (.str s) => if s = title then pure (some t) else jsFindGo2 rest title
    | _ => jsFindGo2 rest title

def jsFindTitled2 (te : Option Json) (title : String) : Except Unit (Option Json) :=
  match te with
  | none => .ok none
  | some .null => .ok none
  | some (.arr a) => jsFindGo2 a title
  | some _ => .error ()

/-- A value flowing untyped into a `string[]` field. -/
def jsToStrList : Json → List String
  | .arr l => l.toList.map jsAsStr
  | j => [jsAsStr j]

/-- Per-entry rewrite, second revision: `tailored?.newDescription ||
exp.description` — plain truthiness, no `Array.isArray` check. -/
def tailorExps2 (te : Option Json) : List Experience → Except Unit (List Experience)
  | [] => .ok []
  | exp :: rest => do
    let tailored ← jsFindTitled2 te exp.title
    let nd ← match tailored with
      | none => pure (none : Option Json)
      | some t => jsGetField t "newDescription"
    let desc := match nd with
      | some j => if j.truthy then jsToStrList j else exp.description
      | none => exp.description
    let tlrest ← tailorExps2 te rest
    pure ({ exp with description := desc } :: tlrest)

/-- The construction of the second revision (lines 639–651): summary and
experience only; skills are untouched by the spread. -/
def buildTailored2 (master : ResumeData) (parsed : Json) : Except Unit ResumeData := do
  let ts ← jsGetField parsed "tailoredSummary"
  let te ← jsGetField parsed "tailoredExperience"
  let newExps ← tailorExps2 te master.experience
  pure { master with
    summary := jsOrElseStr ts master.summary,
    experience := newExps }

/-- `tailorResumeForJob(masterResume, jobDescription)` — second revision
(lines 595–660).  `await model.generateContent(prompt)` stands OUTSIDE the
`try` (line 631), so an endpoint error propagates to the caller; only the
brace-match parse and the construction are guarded, falling back to the
original resume. -/
def tailorResumeForJob2 (master : ResumeData) (_job : JobDescription)
    (res : GenResult) : JsPromise ResumeData :=
  match res with
  | .err => .rejected
  | .ok raw =>
    match jsBraceMatch raw with
    | none => .resolved master
    | some core =>
      match jsonRead core with
      | none => .resolved master
      | some parsed =>
        match buildTailored2 master parsed with
        | .ok r => .resolved r
        | .error _ => .resolved master

/-! ### ATS scoring -/

structure ATSScore where
  score : JSNum
  matchPercentage : JSNum
  keywordMatches : List String
  missingKeywords : List String
  improvements : List String
deriving DecidableEq

/-- The resume text `calculateATSScore` builds (first revision, lines
316–328). -/
def resumeText1 (r : ResumeData) : String :=
  String.intercalate "\n"
    [r.contact.name,
     (if r.summary = "" then "Professional" else r.summary),
     "Skills: " ++ String.intercalate ", " r.skills,
     "Experience: " ++ String.intercalate " | "
       (r.experience.map fun e =>
         e.title ++ " at " ++ e.company ++ ": " ++ String.intercalate " " e.description),
     "Education: " ++ String.intercalate " | "
       (r.education.map fun e =>
         e.degree ++ " in " ++ e.field ++ " from " ++ e.institution)]

/-- The success-path normalization of the first revision (lines 374–389):
both numbers are clamped by `Math.min(100, Math.max(0, x || 0))`; the three
lists are filtered for truthy, non-blank entries. -/
def normalizeATS1 (parsed : Json) : Except Unit ATSScore := do
  let sc ← jsGetField parsed "score"
  let mp ← jsGetField parsed "matchPercentage"
  let mk ← jsGetField parsed "matchedKeywords"
  let km ← jsKeepList mk
  let ms ← jsGetField parsed "missingKeywords"
  let miss ← jsKeepList ms
  let im ← jsGetField parsed "improvements"
  let imps ← jsKeepList im
  pure { score := jsMin (some 100) (jsMax (some 0) (jsNumOrZero sc)),
         matchPercentage := jsMin (some 100) (jsMax (some 0) (jsNumOrZero mp)),
         keywordMatches := km, missingKeywords := miss, improvements := imps }

/-- The keyword-overlap fallback of the first revision (lines 393–417).
With an empty keyword list the division is `0 / 0 = NaN`, which `Math.round`
and `Math.max(30, ·)` both propagate. -/
def atsFallback1 (resume : ResumeData) (job : JobDescription) : ATSScore :=
  let resumeStr := jsLower (resumeText1 resume)
  let jobKeywords := (job.skills ++ job.requirements).map jsLower
  let hits := jobKeywords.filter fun k => jsIncludes resumeStr k
  let pct := jsRound (jsMul
    (jsDiv (some (hits.length : ℚ)) (some (jobKeywords.length : ℚ))) (some 100))
  { score := jsMax (some 30) pct,
    matchPercentage := pct,
    keywordMatches := hits.take 5,
    missingKeywords := (jobKeywords.filter fun k => !(jsIncludes resumeStr k)).take 5,
    improvements :=
      ["Add more relevant keywords from the job description",
       "Include specific technical skills mentioned in the job posting",
       "Quantify achievements with metrics and numbers"] }

/-- `calculateATSScore(resume, jobDescription)` — first revision (lines
309–419): endpoint call and normalization inside one `try`; any failure
falls back to keyword overlap. -/
def calculateATSScore1 (resume : ResumeData) (job : JobDescription)
    (res : GenResult) : ATSScore :=
  match res with
  | .err => atsFallback1 resume job
  | .ok raw =>
    match directOrBraces (jsTrim raw) with
    | none => atsFallback1 resume job
    | some parsed =>
      match normalizeATS1 parsed with
      | .ok a => a
      | .error _ => atsFallback1 resume job

/-- `v || []` flowing into a `string[]` field (second ATS revision). -/
def jsListOrEmpty (v : Option Json) : List String :=
  match v with
  | some j => if j.truthy then jsToStrList j else []
  | none => []

/-- The all-zero object the second revision returns when nothing could be
parsed (lines 716–722). -/
def atsZero : ATSScore :=
  { score := some 0, matchPercentage := some 0,
    keywordMatches := [], missingKeywords := [], improvements := [] }

/-- The success-path construction of the second revision (lines 704–710):
`parsed.score || 0` with NO clamping. -/
def normalizeATS2 (parsed : Json) : Except Unit ATSScore := do
  let sc ← jsGetField parsed "score"
  let mp ← jsGetField parsed "matchPercentage"
  let mk ← jsGetField parsed "matchedKeywords"
  let ms ← jsGetField parsed "missingKeywords"
  let im ← jsGetField parsed "improvements"
  pure { score := jsNumOrZero sc, matchPercentage := jsNumOrZero mp,
         keywordMatches := jsListOrEmpty mk, missingKeywords := jsListOrEmpty ms,
         improvements := jsListOrEmpty im }

/-- `calculateATSScore` — second revision (lines 662–723): the endpoint
call is outside the `try` (an endpoint error propagates); parse or
construction failure yields the all-zero object. -/
def calculateATSScore2 (_resume : ResumeData) (_job : JobDescription)
    (res : GenResult) : JsPromise ATSScore :=
  match res with
  | .err => .rejected
  | .ok raw =>
    match jsBraceMatch raw with
    | none => .resolved atsZero
    | some core =>
      match jsonRead core with
      | none => .resolved atsZero
      | some parsed =>
        match normalizeATS2 parsed with
        | .ok a => .resolved a
        | .error _ => .resolved atsZero

/-! ## Verification of the specified properties -/

theorem kvGet_kvPut_ne {α : Type} (m : List (String × α)) (k k' : String) (v : α)
    (h : k ≠ k') : kvGet (kvPut m k v) k' = kvGet m k' := by
  induction m with
  | nil => simp [kvGet, kvPut, List.find?, h]
  | cons p t ih =>
    obtain ⟨k0, v0⟩ := p
    by_cases h0 : k0 = k
    · subst h0
      simp [kvGet, kvPut, List.find?, h]
    · simp only [kvPut, if_neg h0]
      simp only [kvGet, List.find?] at ih ⊢
      cases hd : decide (k0 = k') with
      | true => simp [hd]
      | false => simp only [hd]; exact ih

theorem jsonSpell_ne_empty (v : Json) : jsonSpell v ≠ "" := by
  intro h
  have hl : (Json.spell v).length = 0 := by
    have h2 := congrArg (fun s => s.data.length) h
    simpa [jsonSpell] using h2
  have := spell_len_pos v
  omega

theorem truthy_spell_str (v : Json) : Json.truthy (.str (jsonSpell v)) = true := by
  simp [Json.truthy, jsonSpell_ne_empty v]

/-- Concrete sample documents for the witness instances. -/
def sampleResume : ResumeData :=
  { contact := { name := "Ada", email := "ada@x.io", phone := "", location := "",
                 website := "" },
    summary := "Engineer", skills := ["TypeScript", "React"],
    experience := [{ title := "Dev", company := "Acme", startDate := "2020",
                     endDate := none, isCurrentlyWorking := true,
                     description := ["built things"] }],
    education := [] }

def sampleJob : JobDescription :=
  { title := "Senior React Developer", company := "Tech Corp", location := "",
    description := "React role", requirements := ["React"], skills := ["React"] }

/-- A job record with empty requirement and skill lists. -/
def emptyJob : JobDescription :=
  { title := "T", company := "C", location := "", description := "",
    requirements := [], skills := [] }

/-- What tailoring may never touch in one experience entry: everything but
the bullet list. -/
def keepsFrame (e m : Experience) : Prop :=
  e.title = m.title ∧ e.company = m.company ∧ e.startDate = m.startDate ∧
  e.endDate = m.endDate ∧ e.isCurrentlyWorking = m.isCurrentlyWorking

theorem keepsFrame_refl (e : Experience) : keepsFrame e e :=
  ⟨rfl, rfl, rfl, rfl, rfl⟩

theorem contains_mem (l : List String) (s : String) (h : l.contains s = true) :
    s ∈ l := by
  induction l with
  | nil => simp [List.contains, List.elem] at h
  | cons a t ih =>
    simp only [List.contains, List.elem] at h ih
    cases hb : s == a with
    | true =>
      have hsa : s = a := by simpa using hb
      simp [hsa]
    | false =>
      rw [hb] at h
      simp only [] at h
      exact List.mem_cons_of_mem a (ih h)

theorem tailorExps1_frame (te : Option Json) :
    ∀ (l l' : List Experience), tailorExps1 te l = .ok l' →
      List.Forall₂ keepsFrame l' l := by
  intro l
  induction l with
  | nil =>
    intro l' h
    simp only [tailorExps1] at h
    cases h
    exact .nil
  | cons exp rest ih =>
    intro l' h
    simp only [tailorExps1] at h
    cases hf : jsFindTitled1 te exp.title with
    | error e => rw [hf] at h; simp only [] at h; exact Except.noConfusion h
    | ok tailored =>
      rw [hf] at h
      simp only [] at h
      cases hnb : (match tailored with
                   | none => Except.ok (none : Option Json)
                   | some t => jsGetField t "newBullets") with
      | error e => rw [hnb] at h; simp only [] at h; exact Except.noConfusion h
      | ok nb =>
        rw [hnb] at h
        simp only [] at h
        cases hrest : tailorExps1 te rest with
        | error e => rw [hrest] at h; simp only [] at h; exact Except.noConfusion h
        | ok tlrest =>
          rw [hrest] at h
          simp only [] at h
          cases h
          exact .cons ⟨rfl, rfl, rfl, rfl, rfl⟩ (ih tlrest hrest)

theorem buildTailored1_frame (master : ResumeData) (parsed : Json) (r : ResumeData)
    (h : buildTailored1 master parsed = .ok r) :
    r.contact = master.contact ∧ r.education = master.education ∧
    List.Forall₂ keepsFrame r.experience master.experience ∧
    ∀ s ∈ r.skills, s ∈ master.skills := by
  unfold buildTailored1 at h
  cases h1 : jsGetField parsed "tailoredSummary" with
  | error e => rw [h1] at h; simp only [] at h; exact Except.noConfusion h
  | ok ts =>
    rw [h1] at h
    simp only [] at h
    cases h2 : jsGetField parsed "tailoredExperience" with
    | error e => rw [h2] at h; simp only [] at h; exact Except.noConfusion h
    | ok te =>
      rw [h2] at h
      simp only [] at h
      cases h3 : tailorExps1 te master.experience with
      | error e => rw [h3] at h; simp only [] at h; exact Except.noConfusion h
      | ok newExps =>
        rw [h3] at h
        simp only [] at h
        cases h4 : jsGetField parsed "recommendedSkillsOrder" with
        | error e => rw [h4] at h; simp only [] at h; exact Except.noConfusion h
        | ok ro =>
          rw [h4] at h
          simp only [] at h
          cases h
          refine ⟨rfl, rfl, tailorExps1_frame te master.experience newExps h3, ?_⟩
          intro s hs
          match ro with
          | none => exact hs
          | some .null => exact hs
          | some (.bool b) => exact hs
          | some (.num q) => exact hs
          | some (.str t) => exact hs
          | some (.obj o) => exact hs
          | some (.arr l) =>
            simp only [Json.truthy, if_true] at hs
            obtain ⟨j, _, hj⟩ := List.mem_filterMap.mp hs
            match j with
            | .null => simp at hj
            | .bool b => simp at hj
            | .num q => simp at hj
            | .str t =>
              simp only [] at hj
              by_cases hc : master.skills.contains t = true
              · rw [if_pos hc] at hj
                cases hj
                exact contains_mem _ _ hc
              · rw [if_neg hc] at hj
                cases hj
            | .arr a => simp at hj
            | .obj o => simp at hj

/-! ### The claims -/

/-- C1: the master-resume read path of the later accessor revision
(lines 477–533): the synchronized backend is attempted first and a record
found there is returned as-is when the parsed value is truthy (the
`if (result)` gate at line 502); when the synchronized backend yields
nothing — including a stored record that parses to a falsy value such as
`null` — the local backend is read, and a record found there is returned
while being replicated into the synchronized backend best-effort (with a
failing replication swallowed, leaving the synchronized store untouched).
The earlier revision (lines 314–347) does not satisfy this: an unparseable
synchronized record leaves its promise forever pending instead of falling
back (see the counterexample). -/
theorem C1_master_read_path (w : World) (r rs : Json) (hint : Json.intish r)
    (hints : Json.intish rs) :
    (w.chromeAvail = true → w.syncFail = false →
      kvGet w.sync MASTER_RESUME = some (.str (jsonSpell r)) →
      r.truthy = true →
      getMasterResume2 w = .resolved (some r, w)) ∧
    ((kvGet w.sync MASTER_RESUME = none ∨
      (kvGet w.sync MASTER_RESUME = some (.str (jsonSpell rs)) ∧
        rs.truthy = false)) →
      kvGet w.webLocal MASTER_RESUME = some (jsonSpell r) →
      ∃ w2, getMasterResume2 w = .resolved (some r, w2) ∧
        kvGet w2.webLocal MASTER_RESUME = some (jsonSpell r) ∧
        (w.chromeAvail = true → w.syncFail = false →
          kvGet w2.sync MASTER_RESUME = some (.str (jsonSpell r))) ∧
        ((w.chromeAvail = false ∨ w.syncFail = true) → w2.sync = w.sync)) := by
  have hne : jsonSpell r ≠ "" := jsonSpell_ne_empty r
  have hrd : jsonRead (jsonSpell r) = some r := jsonRead_jsonSpell r hint
  have hrds : jsonRead (jsonSpell rs) = some rs := jsonRead_jsonSpell rs hints
  obtain ⟨ca, sf, sy, wl⟩ := w
  constructor
  · intro hca hsf hs htr
    simp only at hca hsf hs
    subst hca; subst hsf
    simp [getMasterResume2, hs, hrd, truthy_spell_str r, hne, htr]
  · intro hsync hl
    simp only at hsync hl
    cases ca with
    | false =>
      refine ⟨⟨false, sf, sy, wl⟩, ?_, hl, ?_, ?_⟩
      · simp [getMasterResume2, hl, hne, hrd]
      · intro hca; exact absurd hca (by simp)
      · intro _; rfl
    | true =>
      cases sf with
      | true =>
        refine ⟨⟨true, true, sy, kvPut wl MASTER_RESUME (jsonSpell r)⟩, ?_, ?_, ?_, ?_⟩
        · simp [getMasterResume2, hl, hne, hrd, setMasterResume]
        · exact kvGet_kvPut wl MASTER_RESUME (jsonSpell r)
        · intro _ hsf; exact absurd hsf (by simp)
        · intro _; rfl
      | false =>
        refine ⟨⟨true, false, kvPut sy MASTER_RESUME (.str (jsonSpell r)),
                 kvPut wl MASTER_RESUME (jsonSpell r)⟩, ?_, ?_, ?_, ?_⟩
        · rcases hsync with hs0 | ⟨hs1, hfalsy⟩
          · simp [getMasterResume2, hs0, hl, hne, hrd, setMasterResume]
          · simp [getMasterResume2, hs1, hl, hne, hrd, hrds, setMasterResume,
                  truthy_spell_str rs, hfalsy]
        · exact kvGet_kvPut wl MASTER_RESUME (jsonSpell r)
        · intro _ _; exact kvGet_kvPut sy MASTER_RESUME (.str (jsonSpell r))
        · intro hor; rcases hor with hca | hsf
          · exact absurd hca (by simp)
          · exact absurd hsf (by simp)

/-- C1, refuted for the earlier revision: with a synchronized record that
fails `JSON.parse` and a perfectly good local record, `getMasterResume`
(lines 314–347) never settles — it neither errors nor falls back to the
local backend. -/
theorem C1_master_read_path_counterexample :
    getMasterResume1
      ⟨true, false, [(MASTER_RESUME, .str "\x7boops")], [(MASTER_RESUME, "null")]⟩ =
      .pending := by decide

/-- C1 at a concrete input: the synchronized store holds the falsy record
`"null"` while the local store holds `"true"`; the read falls through the
falsy sync record, returns the local record and replicates it over the
sync one. -/
theorem C1_master_read_path_witness :
    ∃ w2, getMasterResume2
        ⟨true, false, [(MASTER_RESUME, .str "null")], [(MASTER_RESUME, "true")]⟩ =
        .resolved (some (.bool true), w2) ∧
      kvGet w2.webLocal MASTER_RESUME = some (jsonSpell (.bool true)) ∧
      (true = true → false = false →
        kvGet w2.sync MASTER_RESUME = some (.str (jsonSpell (.bool true)))) ∧
      ((true = false ∨ false = true) →
        w2.sync = [(MASTER_RESUME, .str "null")]) :=
  (C1_master_read_path
    ⟨true, false, [(MASTER_RESUME, .str "null")], [(MASTER_RESUME, "true")]⟩
    (.bool true) .null trivial trivial).2
    (Or.inr ⟨by decide, by decide⟩) (by decide)

/-- C2: with the synchronized backend absent, every storage-adapter call
falls through to `localStorage` and completes: a save lands the serialized
value there, a read of a saved key returns the value, and a remove deletes
the key — none of the three rejects.  When the backend is present but its
operation errors, the calls do NOT degrade: they reject (see the
counterexample), so the original claim holds only for the absent-backend
half. -/
theorem C2_storage_local_fallback (w : World) (key : String) (value : Json)
    (h : w.chromeAvail = false) (hint : Json.intish value) :
    saveToStorage w key value =
      .resolved { w with webLocal := kvPut w.webLocal key (jsonSpell value) } ∧
    getFromStorage { w with webLocal := kvPut w.webLocal key (jsonSpell value) } key =
      .resolved (some value) ∧
    removeFromStorage w key =
      .resolved { w with webLocal := kvDel w.webLocal key } := by
  obtain ⟨ca, sf, sy, wl⟩ := w
  simp only at h
  subst h
  refine ⟨rfl, ?_, rfl⟩
  simp [getFromStorage, kvGet_kvPut, jsonSpell_ne_empty value,
        jsonRead_jsonSpell value hint]

/-- C2, refuted for the erroring-backend half: with `chrome.storage`
present but `chrome.runtime.lastError` set, `saveToStorage` rejects — the
backend failure is raised to the caller instead of degrading to a no-op or
falling through. -/
theorem C2_storage_local_fallback_counterexample :
    saveToStorage ⟨true, true, [], []⟩ "k" .null = .rejected ∧
    getFromStorage ⟨true, true, [], []⟩ "k" = .rejected ∧
    removeFromStorage ⟨true, true, [], []⟩ "k" = .rejected := by decide

/-- C2 at a concrete input: backend absent, key "k", value `null`. -/
theorem C2_storage_local_fallback_witness :
    saveToStorage ⟨false, false, [], []⟩ "k" .null =
      .resolved ⟨false, false, [], kvPut [] "k" (jsonSpell .null)⟩ ∧
    getFromStorage ⟨false, false, [], kvPut [] "k" (jsonSpell .null)⟩ "k" =
      .resolved (some .null) ∧
    removeFromStorage ⟨false, false, [], []⟩ "k" =
      .resolved ⟨false, false, [], kvDel [] "k"⟩ :=
  C2_storage_local_fallback ⟨false, false, [], []⟩ "k" .null rfl trivial

/-- C3: `setMasterResume` (identical in both revisions) always resolves,
always writes the serialized document to `localStorage`, mirrors it into
`chrome.storage.sync` exactly when that backend is present and healthy,
and otherwise leaves the synchronized store untouched — the mirror's
failure or absence never fails the call and never loses the local write. -/
theorem C3_master_write_path (w : World) (resume : Json) :
    ∃ w1, setMasterResume w resume = .resolved w1 ∧
      kvGet w1.webLocal MASTER_RESUME = some (jsonSpell resume) ∧
      (w.chromeAvail = true → w.syncFail = false →
        kvGet w1.sync MASTER_RESUME = some (.str (jsonSpell resume))) ∧
      ((w.chromeAvail = false ∨ w.syncFail = true) → w1.sync = w.sync) := by
  obtain ⟨ca, sf, sy, wl⟩ := w
  cases ca with
  | false =>
    refine ⟨⟨false, sf, sy, kvPut wl MASTER_RESUME (jsonSpell resume)⟩, rfl,
      kvGet_kvPut wl MASTER_RESUME (jsonSpell resume), ?_, fun _ => rfl⟩
    intro hca; exact absurd hca (by simp)
  | true =>
    cases sf with
    | true =>
      refine ⟨⟨true, true, sy, kvPut wl MASTER_RESUME (jsonSpell resume)⟩, rfl,
        kvGet_kvPut wl MASTER_RESUME (jsonSpell resume), ?_, fun _ => rfl⟩
      intro _ hsf; exact absurd hsf (by simp)
    | false =>
      refine ⟨⟨true, false, kvPut sy MASTER_RESUME (.str (jsonSpell resume)),
               kvPut wl MASTER_RESUME (jsonSpell resume)⟩, rfl,
        kvGet_kvPut wl MASTER_RESUME (jsonSpell resume),
        fun _ _ => kvGet_kvPut sy MASTER_RESUME (.str (jsonSpell resume)), ?_⟩
      intro hor
      rcases hor with hca | hsf
      · exact absurd hca (by simp)
      · exact absurd hsf (by simp)

/-- C4: with no synchronized backend present, writing a resume document
with `setMasterResume` and reading it back with `getMasterResume` (second
revision, through the local backend alone) returns exactly the document
that was written. -/
theorem C4_master_roundtrip (w : World) (r : ResumeData)
    (h : w.chromeAvail = false) :
    ∃ w1, setMasterResume w r.toJson = .resolved w1 ∧
      getMasterResume2 w1 = .resolved (some r.toJson, w1) := by
  obtain ⟨ca, sf, sy, wl⟩ := w
  simp only at h
  subst h
  refine ⟨⟨false, sf, sy, kvPut wl MASTER_RESUME (jsonSpell r.toJson)⟩, rfl, ?_⟩
  simp [getMasterResume2, kvGet_kvPut, jsonSpell_ne_empty r.toJson,
        jsonRead_jsonSpell r.toJson r.toJson_intish]

/-- C4 at a concrete input: the sample resume written and read back through
an empty local store. -/
theorem C4_master_roundtrip_witness :
    ∃ w1, setMasterResume ⟨false, false, [], []⟩ sampleResume.toJson =
        .resolved w1 ∧
      getMasterResume2 w1 = .resolved (some sampleResume.toJson, w1) :=
  C4_master_roundtrip ⟨false, false, [], []⟩ sampleResume rfl

/-- C5: when the tailoring operation fails, the first revision
(lines 212–307) returns the original resume unchanged — both on an
endpoint error and on a response with no parseable JSON — and the second
revision (lines 595–660) still returns the original resume on an
unparseable response, but an endpoint error there propagates to the caller
as a rejection (the `generateContent` call sits outside the `try`; see the
counterexample), so the original claim holds only for the first
revision. -/
theorem C5_tailor_failure_fallback (master : ResumeData) (job : JobDescription)
    (raw : String)
    (h1 : jsonRead (jsTrim raw) = none)
    (h2 : jsBraceMatch (jsTrim raw) = none)
    (h3 : jsBraceMatch raw = none) :
    tailorResumeForJob1 master job .err = master ∧
    tailorResumeForJob1 master job (.ok raw) = master ∧
    tailorResumeForJob2 master job (.ok raw) = .resolved master := by
  refine ⟨rfl, ?_, ?_⟩
  · simp [tailorResumeForJob1, directOrBraces, h1, h2]
  · simp [tailorResumeForJob2, h3]

/-- C5, refuted for the second revision: a failing endpoint call makes
`tailorResumeForJob` reject instead of returning the original resume. -/
theorem C5_tailor_failure_fallback_counterexample :
    tailorResumeForJob2 sampleResume sampleJob .err = .rejected := rfl

/-- C5 at a concrete input: the sample resume and job with a response that
holds no JSON at all. -/
theorem C5_tailor_failure_fallback_witness :
    tailorResumeForJob1 sampleResume sampleJob .err = sampleResume ∧
    tailorResumeForJob1 sampleResume sampleJob (.ok "no json here") = sampleResume ∧
    tailorResumeForJob2 sampleResume sampleJob (.ok "no json here") =
      .resolved sampleResume :=
  C5_tailor_failure_fallback sampleResume sampleJob "no json here"
    (by decide) (by decide) (by decide)

/-- C6: for a response that holds no parseable JSON and no brace-delimited
substring, `parseJobFromHTML` returns its documented fallback object (the
"Job Position"/"Company" record built from the page text) and
`extractJobRequirements` resolves with its documented default object —
neither raises.  The original claim's "no brace-delimited substring"
condition alone is not enough: a braceless response that is itself valid
JSON (say `123`) direct-parses in `parseJobFromHTML`, whose normalization
then yields the "Unknown Position"/"Unknown Company" record instead of the
documented fallback (see the counterexample). -/
theorem C6_parse_default_on_garbage (html desc raw : String)
    (h1 : jsonRead (jsTrim raw) = none)
    (h2 : jsBraceMatch (jsTrim raw) = none)
    (h3 : jsBraceMatch raw = none) :
    parseJobFromHTML1 html (.ok raw) = fallbackJob html ∧
    extractJobRequirements desc (.ok raw) = .resolved (defaultJobReqs desc) := by
  constructor
  · simp [parseJobFromHTML1, directOrBraces, h1, h2]
  · simp [extractJobRequirements, h3]

/-- C6, refuted as universally stated: the response `123` has no
brace-delimited substring, yet `parseJobFromHTML` does not return the
documented fallback object — the direct `JSON.parse` succeeds and the
normalization of the number yields the "Unknown ..." record. -/
theorem C6_parse_default_on_garbage_counterexample :
    jsBraceMatch "123" = none ∧
    parseJobFromHTML1 "some page" (.ok "123") ≠ fallbackJob "some page" ∧
    parseJobFromHTML1 "some page" (.ok "123") =
      { title := "Unknown Position", company := "Unknown Company", location := "",
        description := "", requirements := [], skills := [] } := by decide

/-- C6 at a concrete input: the response "not JSON at all". -/
theorem C6_parse_default_on_garbage_witness :
    parseJobFromHTML1 "<p>page</p>" (.ok "not JSON at all") =
      fallbackJob "<p>page</p>" ∧
    extractJobRequirements "desc" (.ok "not JSON at all") =
      .resolved (defaultJobReqs "desc") :=
  C6_parse_default_on_garbage "<p>page</p>" "desc" "not JSON at all"
    (by decide) (by decide) (by decide)

/-- C7: `extractJobRequirements` yields the parsed object exactly when the
response's brace-delimited substring parses: the object is returned as-is,
without normalization.  The original claim fails in both directions as
stated: a valid-JSON response without braces (`123`) is never
direct-parsed by `extractJobRequirements` (which only brace-matches, so
the parse succeeds yet the default object comes back — see the
counterexample), and `parseJobFromHTML` never returns the parsed object
itself but a normalization of it (same counterexample). -/
theorem C7_parse_valid_json (desc raw core : String) (p : Json)
    (h1 : jsBraceMatch raw = some core) (h2 : jsonRead core = some p) :
    extractJobRequirements desc (.ok raw) = .resolved p := by
  simp [extractJobRequirements, h1, h2]

/-- C7, refuted as stated: `123` is valid JSON, yet `extractJobRequirements`
returns its default object, not the parsed number. -/
theorem C7_parse_valid_json_counterexample :
    jsonRead "123" = some (.num (mkRat 123 1)) ∧
    extractJobRequirements "d" (.ok "123") = .resolved (defaultJobReqs "d") ∧
    defaultJobReqs "d" ≠ .num (mkRat 123 1) := by decide

/-- C7 at a concrete input: a response with an embedded object. -/
theorem C7_parse_valid_json_witness :
    extractJobRequirements "d" (.ok "Sure! \x7b\x22title\x22: \x22Dev\x22\x7d done") =
      .resolved (.obj (.cons "title" (.str "Dev") .nil)) :=
  C7_parse_valid_json "d" "Sure! \x7b\x22title\x22: \x22Dev\x22\x7d done"
    "\x7b\x22title\x22: \x22Dev\x22\x7d" (.obj (.cons "title" (.str "Dev") .nil))
    (by decide) (by decide)

/-- C8: the later content-script revision (`part_003`, same text in
`part_001`) writes the markup, text, URL, timestamp and heuristic record
to the synchronized store as one batched `chrome.storage.sync.set`, leaves
`localStorage` untouched, and — when the synchronized store is absent or
its set errors — fails outright with an alert and no fallback write.  The
earlier revision (`part_002`) does not satisfy this: its four sequential
`saveToStorage` calls fall back to `localStorage` when `chrome.storage` is
absent and report success (see the counterexample). -/
theorem C8_capture_batch (w : World) (ph pt pu ts : String) (jd : Json) :
    ((w.chromeAvail = false ∨ w.syncFail = true) →
      capture3 w ph pt pu ts (some jd) = .alerted w) ∧
    (w.chromeAvail = true → w.syncFail = false →
      ∃ w', capture3 w ph pt pu ts (some jd) = .saved w' ∧
        kvGet w'.sync "currentPageHTML" = some (.str ph) ∧
        kvGet w'.sync "currentPageText" = some (.str pt) ∧
        kvGet w'.sync "currentPageURL" = some (.str pu) ∧
        kvGet w'.sync "currentPageAnalyzedAt" = some (.str ts) ∧
        kvGet w'.sync "currentJobData" = some jd ∧
        w'.webLocal = w.webLocal) := by
  obtain ⟨ca, sf, sy, wl⟩ := w
  constructor
  · intro hor
    rcases hor with hca | hsf
    · simp only at hca
      subst hca
      rfl
    · simp only at hsf
      subst hsf
      cases ca <;> rfl
  · intro hca hsf
    simp only at hca hsf
    subst hca; subst hsf
    refine ⟨_, rfl, ?_, ?_, ?_, ?_, ?_, rfl⟩ <;>
      simp only [kvPutAll, List.foldl]
    · rw [kvGet_kvPut_ne _ _ _ _ (by decide), kvGet_kvPut_ne _ _ _ _ (by decide),
          kvGet_kvPut_ne _ _ _ _ (by decide), kvGet_kvPut_ne _ _ _ _ (by decide)]
      exact kvGet_kvPut sy "currentPageHTML" (.str ph)
    · rw [kvGet_kvPut_ne _ _ _ _ (by decide), kvGet_kvPut_ne _ _ _ _ (by decide),
          kvGet_kvPut_ne _ _ _ _ (by decide)]
      exact kvGet_kvPut _ "currentPageText" (Json.str pt)
    · rw [kvGet_kvPut_ne _ _ _ _ (by decide), kvGet_kvPut_ne _ _ _ _ (by decide)]
      exact kvGet_kvPut _ "currentPageURL" (Json.str pu)
    · rw [kvGet_kvPut_ne _ _ _ _ (by decide)]
      exact kvGet_kvPut _ "currentPageAnalyzedAt" (Json.str ts)
    · exact kvGet_kvPut _ "currentJobData" jd

/-- C8, refuted for the earlier revision: with `chrome.storage` absent, the
sequential-save capture succeeds through `localStorage` — it neither fails
outright nor alerts, directly against the batched no-fallback contract. -/
theorem C8_capture_batch_counterexample :
    capture2 ⟨false, false, [], []⟩ "h" "t" "u" none =
      .saved ⟨false, false, [],
        [("currentPageHTML", "\x22h\x22"), ("currentPageText", "\x22t\x22"),
         ("currentPageURL", "\x22u\x22")]⟩ := by decide

/-- C8 at a concrete input: a healthy synchronized store receives the whole
batch; an absent one alerts. -/
theorem C8_capture_batch_witness :
    ((false = false ∨ false = true) →
      capture3 ⟨false, false, [], []⟩ "h" "t" "u" "now" (some .null) =
        .alerted ⟨false, false, [], []⟩) ∧
    (false = true → false = false →
      ∃ w', capture3 ⟨false, false, [], []⟩ "h" "t" "u" "now" (some .null) =
          .saved w' ∧
        kvGet w'.sync "currentPageHTML" = some (.str "h") ∧
        kvGet w'.sync "currentPageText" = some (.str "t") ∧
        kvGet w'.sync "currentPageURL" = some (.str "u") ∧
        kvGet w'.sync "currentPageAnalyzedAt" = some (.str "now") ∧
        kvGet w'.sync "currentJobData" = some .null ∧
        w'.webLocal = []) :=
  C8_capture_batch ⟨false, false, [], []⟩ "h" "t" "u" "now" .null

/-- C9 evidence: on the keyword-overlap fallback path with a job record
whose requirement and skill lists are both empty, `calculateATSScore`
(first revision) divides zero matches by zero keywords — `score` and
`matchPercentage` are both `NaN`, outside 0..100; and the second revision
returns a model-supplied `score` of 500 unclamped. -/
theorem C9_ats_score_out_of_range :
    (calculateATSScore1 sampleResume emptyJob .err).score = jsNaN ∧
    (calculateATSScore1 sampleResume emptyJob .err).matchPercentage = jsNaN ∧
    calculateATSScore2 sampleResume emptyJob
        (.ok "\x7b\x22score\x22: 500, \x22matchPercentage\x22: 500\x7d") =
      .resolved { score := some (mkRat 500 1), matchPercentage := some (mkRat 500 1),
                  keywordMatches := [], missingKeywords := [],
                  improvements := [] } := by decide

/-- C10: whatever the endpoint returns, the resume produced by
`tailorResumeForJob` (first revision, lines 212–307) keeps the master
resume's contact block and education list, keeps every experience entry's
title, company, dates and current-role flag (only the bullet list may
change), and every skill it lists is a skill of the master resume. -/
theorem C10_tailoring_frame (master : ResumeData) (job : JobDescription)
    (res : GenResult) :
    (tailorResumeForJob1 master job res).contact = master.contact ∧
    (tailorResumeForJob1 master job res).education = master.education ∧
    List.Forall₂ keepsFrame (tailorResumeForJob1 master job res).experience
      master.experience ∧
    ∀ s ∈ (tailorResumeForJob1 master job res).skills, s ∈ master.skills := by
  have hself : (master.contact = master.contact ∧
      master.education = master.education ∧
      List.Forall₂ keepsFrame master.experience master.experience ∧
      ∀ s ∈ master.skills, s ∈ master.skills) :=
    ⟨rfl, rfl, List.forall₂_same.mpr fun e _ => keepsFrame_refl e, fun _ hs => hs⟩
  cases res with
  | err => exact hself
  | ok raw =>
    cases hd : directOrBraces (jsTrim raw) with
    | none =>
      have he : tailorResumeForJob1 master job (.ok raw) = master := by
        simp [tailorResumeForJob1, hd]
      rw [he]; exact hself
    | some parsed =>
      cases hb : buildTailored1 master parsed with
      | error e =>
        have he : tailorResumeForJob1 master job (.ok raw) = master := by
          simp [tailorResumeForJob1, hd, hb]
        rw [he]; exact hself
      | ok r =>
        have he : tailorResumeForJob1 master job (.ok raw) = r := by
          simp [tailorResumeForJob1, hd, hb]
        rw [he]; exact buildTailored1_frame master parsed r hb

end ResumeAutoma
